import Mathlib

/-!
  Verification of the go-repl interactive line editor (OpenEngineer/go-repl).

  This file gives a shallow embedding of the editor state machine of
  `repl.go`.  Go byte slices are `List Nat` (byte values); `nil`-ness of
  the `buffer` slice (tested by `r.backup == nil` propagation) is tracked
  in the extra field `bufNil`; `backup` and `filter` are `Option` because
  the code tests them against `nil`.  Terminal writes are not modelled
  (they do not change the editor state) except where the code mutates state
  while rendering (`boundPromptRow`, `statusFields`, `updatePromptRow`).
  Two ghost fields record the observable interaction with the handler:
  `evalCalls` (the arguments passed to `Handler.Eval`) and `printLog`
  (the lines printed after an evaluation).

  Functions that can panic in Go (`filterStatus`'s unexpected branch,
  an out-of-range `parts[1]` index while parsing a cursor report, a bad
  slice in the view loops) return `Option Repl`, `none` meaning the Go
  program dies; `none` is also used for `quit` (process exit) and for
  exhaustion of the fuel that bounds the code's `for` loops (the fuel
  supplied is strictly larger than what any terminating Go execution
  consumes).
-/

/-- The user-supplied callback (interface `Handler` in `handler.go`),
with strings as byte lists. -/
structure Handler where
  prompt : List Nat
  eval : List Nat → List Nat
  tab : List Nat → List Nat

/-- The editor state: the fields of `struct Repl` that the keystroke
dispatcher reads or writes, plus `bufNil` (whether the Go `buffer` slice
is `nil`) and the two ghost logs. -/
structure Repl where
  history : List (List Nat)
  historyIdx : Int
  buffer : List Nat
  bufNil : Bool
  backup : Option (List Nat)
  prevDel : List Nat
  filter : Option (List Nat)
  bufferPos : Nat
  viewStart : Nat
  viewEnd : Int
  promptRow : Int
  width : Nat
  height : Nat
  evalCalls : List (List Nat)
  printLog : List (List Nat)
deriving DecidableEq, Repr

/-- `NewRepl` followed by the width/height initialisation in `Loop`
(`notifySizeChange` reads the terminal size once before polling). -/
def newRepl (w h : Nat) : Repl :=
  { history := [], historyIdx := -1, buffer := [], bufNil := true, backup := none,
    prevDel := [], filter := none, bufferPos := 0, viewStart := 0, viewEnd := -1,
    promptRow := -1, width := w, height := h, evalCalls := [], printLog := [] }

def promptLen (H : Handler) : Nat := H.prompt.length

/-- `statusVisible`: the status bar is hidden when the width is below 10. -/
def statusVisible (s : Repl) : Bool := !(s.width < 10)

/-- `innerHeight`: terminal height minus one when the status bar is visible. -/
def innerHeight (s : Repl) : Int :=
  if statusVisible s then (s.height : Int) - 1 else (s.height : Int)

/-- `searchActive`: reverse search is active iff the filter slice is not nil. -/
def searchActive (s : Repl) : Bool := s.filter.isSome

/-- The body of the `for j, c := range buffer` loop of `relCursorCoord`:
`j` counts processed bytes, and the loop breaks as soon as `j ≥ bufferPos`,
so it walks exactly `buffer.take bufferPos`. -/
def relCoordGo (w : Nat) : List Nat → Nat → Nat → Nat × Nat
  | [], x, y => (x, y)
  | c :: rest, x, y =>
    let x1 := if c = 10 then 0 else x + 1
    let y1 := if c = 10 then y + 1 else y
    if x1 = w then relCoordGo w rest 0 (y1 + 1)
    else relCoordGo w rest x1 y1

/-- `relCursorCoord(buffer, x0, bufferPos, w)` from `repl.go`. -/
def relCursorCoord (buffer : List Nat) (x0 : Nat) (bufferPos : Nat) (w : Nat) :
    Nat × Nat :=
  relCoordGo w (buffer.take bufferPos) x0 0

/-- `calcHeight(buffer, x0, w)`. -/
def calcHeight (buffer : List Nat) (x0 : Nat) (w : Nat) : Nat :=
  (relCursorCoord buffer x0 buffer.length w).2 + 1

/-- `cursorCoord(bufferPos)`: negative input means the current cursor;
the result row is shifted by `promptRow`. -/
def cursorCoord (H : Handler) (s : Repl) (bufferPos : Int) : Nat × Int :=
  let p : Nat := if bufferPos < 0 then s.bufferPos else bufferPos.toNat
  let xy := relCursorCoord (s.buffer.drop s.viewStart) (promptLen H)
    (p - s.viewStart) s.width
  (xy.1, (xy.2 : Int) + s.promptRow)

/-- `updatePromptRow`: clamp the row into `[0, height−1]` (the upper test
runs first, so `height = 0` yields `−1`). -/
def updatePromptRow (s : Repl) (row : Int) : Repl :=
  let row := if row ≥ (s.height : Int) then (s.height : Int) - 1
    else if row < 0 then 0 else row
  { s with promptRow := row }

/-- `boundPromptRow`: if the end of the view renders past the inner
height, the terminal is scrolled and `promptRow` decremented to match. -/
def boundPromptRow (H : Handler) (s : Repl) : Repl :=
  let n : Nat := if s.viewEnd < 0 then s.buffer.length else s.viewEnd.toNat
  let ye := (cursorCoord H s (n : Int)).2
  if ye ≥ innerHeight s then
    updatePromptRow s (s.promptRow - (ye + 1 - innerHeight s))
  else s

/-- `resetBuffer` (the prompt reprint is output-only). -/
def resetBuffer (s : Repl) : Repl :=
  { s with bufferPos := 0, buffer := [], bufNil := false,
           viewStart := 0, viewEnd := -1 }

/-- `clearBuffer`: fixes a negative `promptRow`, clears rows (output),
then resets the buffer. -/
def clearBuffer (s : Repl) : Repl :=
  resetBuffer (if s.promptRow < 0 then updatePromptRow s 0 else s)

/-- `clearScreen` (the method): clears the screen, homes the cursor,
sets `promptRow := 0` and resets the buffer. -/
def clearScreenState (s : Repl) : Repl := resetBuffer (updatePromptRow s 0)

/-- `overflow()`: returns whether the full buffer is taller than the
inner area, resetting the view window as a side effect when it is not. -/
def overflow (H : Handler) (s : Repl) : Bool × Repl :=
  if (calcHeight s.buffer (promptLen H) s.width : Int) > innerHeight s then (true, s)
  else (false, { s with viewStart := 0, viewEnd := -1 })

/-- `calcViewHeight`: clamps `viewEnd` down to the buffer length (a state
mutation in the source), then measures `buffer[viewStart:viewEnd]`; `none`
is the Go slice bounds panic when `viewEnd < viewStart` (this includes a
negative `viewEnd`). -/
def calcViewHeight (H : Handler) (s : Repl) : Option (Nat × Repl) :=
  let s := if s.viewEnd > (s.buffer.length : Int) then
    { s with viewEnd := (s.buffer.length : Int) } else s
  if s.viewEnd < (s.viewStart : Int) then none
  else some (calcHeight ((s.buffer.take s.viewEnd.toNat).drop s.viewStart)
    (promptLen H) s.width, s)

/-- `viewOverflow()`. -/
def viewOverflow (H : Handler) (s : Repl) : Option (Bool × Repl) :=
  (calcViewHeight H s).map (fun p => (decide ((p.1 : Int) > innerHeight p.2), p.2))

/-- `for r.viewOverflow() { r.viewEnd -= 1 }`, fuelled. -/
def shrinkEnd (H : Handler) : Nat → Repl → Option Repl
  | 0, _ => none
  | f + 1, s =>
    match viewOverflow H s with
    | none => none
    | some (b, s) =>
      if b then shrinkEnd H f { s with viewEnd := s.viewEnd - 1 } else some s

/-- `for r.viewOverflow() { r.viewStart += 1 }`, fuelled. -/
def shrinkStart (H : Handler) : Nat → Repl → Option Repl
  | 0, _ => none
  | f + 1, s =>
    match viewOverflow H s with
    | none => none
    | some (b, s) =>
      if b then shrinkStart H f { s with viewStart := s.viewStart + 1 } else some s

/-- `for !r.viewOverflow() && r.viewEnd < r.bufferLen() { r.viewEnd += 1 }`,
fuelled. -/
def growEnd (H : Handler) : Nat → Repl → Option Repl
  | 0, _ => none
  | f + 1, s =>
    match viewOverflow H s with
    | none => none
    | some (b, s) =>
      if !b ∧ s.viewEnd < (s.buffer.length : Int) then
        growEnd H f { s with viewEnd := s.viewEnd + 1 }
      else some s

/-- Fuel for the view loops: strictly more iterations than any
terminating run of the `for` loops above can take (each loop moves one
bound by one per iteration inside `[0, bufferLen]`). -/
def viewFuel (s : Repl) : Nat := s.buffer.length + s.viewEnd.toNat + 8

/-- `adjustBufferView`. -/
def adjustBufferView (H : Handler) (s : Repl) : Option Repl :=
  if s.bufferPos < s.viewStart then
    let s := { s with viewStart := s.bufferPos, viewEnd := (s.buffer.length : Int) }
    shrinkEnd H (viewFuel s) s
  else if (s.bufferPos : Int) > s.viewEnd then
    let s := { s with viewEnd := (s.bufferPos : Int) }
    shrinkStart H (viewFuel s) s
  else
    match viewOverflow H s with
    | none => none
    | some (b, s) =>
      if b then
        let s := { s with viewEnd := (s.buffer.length : Int) }
        shrinkEnd H (viewFuel s) s
      else
        match growEnd H (viewFuel s) s with
        | none => none
        | some s => shrinkEnd H (viewFuel s) s

/-! ### Phrase boundaries (`phraseRe`, `phraseStartPositions`) -/

/-- A byte matched by the phrase regular expression `[0-9a-zA-Z_\-\.]+`. -/
def isPhraseByte (c : Nat) : Bool :=
  (48 ≤ c && c ≤ 57) || (97 ≤ c && c ≤ 122) || (65 ≤ c && c ≤ 90) ||
  c == 95 || c == 45 || c == 46

/-- The `(start, stop)` pairs of the maximal runs of phrase bytes: this is
what `regexp.FindAllIndex` returns for the phrase pattern. `i` is the
index of the head of the remaining list; an open run started at `st`. -/
def phraseRuns : List Nat → Nat → Option Nat → List (Nat × Nat)
  | [], _, none => []
  | [], i, some st => [(st, i)]
  | c :: rest, i, none =>
    if isPhraseByte c then phraseRuns rest (i + 1) (some i)
    else phraseRuns rest (i + 1) none
  | c :: rest, i, some st =>
    if isPhraseByte c then phraseRuns rest (i + 1) (some st)
    else (st, i) :: phraseRuns rest (i + 1) none

def findAllIndex (buffer : List Nat) : List (Nat × Nat) := phraseRuns buffer 0 none

/-- The `for i, match := range indices` loop of `phraseStartPositions`:
prepend 0 before the first match when it does not start the buffer, append
the buffer length after the last when it does not end it. -/
def phraseStartAux (len n : Nat) : Nat → List (Nat × Nat) → List Nat
  | _, [] => []
  | i, (st, sp) :: rest =>
    (if i = 0 ∧ st ≠ 0 then [0] else []) ++ [st, sp] ++
    (if i = n - 1 ∧ sp ≠ len then [len] else []) ++
    phraseStartAux len n (i + 1) rest

/-- `phraseStartPositions`. -/
def phraseStartPositions (buffer : List Nat) : List Nat :=
  if buffer.length = 0 then [0]
  else
    let indices := findAllIndex buffer
    let res := phraseStartAux buffer.length indices.length 0 indices
    if res = [] ∨ res.getLastD 0 ≠ buffer.length then res ++ [buffer.length]
    else res

/-- `nextPhrasePos`: the first boundary strictly right of the cursor
(`res` defaults to the Go zero value when the scan finds nothing). -/
def nextPhrasePos (s : Repl) : Nat × Bool :=
  let res :=
    if s.bufferPos = s.buffer.length then s.buffer.length
    else ((phraseStartPositions s.buffer).find? (fun idx => s.bufferPos < idx)).getD 0
  (res, res ≠ s.bufferPos)

/-- `prevPhrasePos`: the last boundary strictly left of the cursor
(a backward scan, `res` defaulting to the Go zero value). -/
def prevPhrasePos (s : Repl) : Nat × Bool :=
  let res :=
    if s.bufferPos = 0 then 0
    else ((phraseStartPositions s.buffer).reverse.find?
      (fun idx => idx < s.bufferPos)).getD 0
  (res, res ≠ s.bufferPos)

/-! ### Byte-string helpers (`strings.Contains`, `strings.Split`,
`strconv.Atoi`, `strings.TrimSpace`) -/

/-- `needle` begins `hay`. -/
def leadMatch : List Nat → List Nat → Bool
  | [], _ => true
  | _ :: _, [] => false
  | a :: as_, b :: bs => a == b && leadMatch as_ bs

/-- `strings.Contains(hay, needle)` on byte lists. -/
def goContains : List Nat → List Nat → Bool
  | [], needle => leadMatch needle []
  | h :: t, needle => leadMatch needle (h :: t) || goContains t needle

/-- `strings.Split(s, ";")` on byte lists (always at least one part). -/
def goSplitSemi : List Nat → List (List Nat)
  | [] => [[]]
  | c :: rest =>
    let r := goSplitSemi rest
    if c = 59 then [] :: r
    else
      match r with
      | h :: t => (c :: h) :: t
      | [] => [[c]]

/-- `strings.Split(s, "\n")` on byte lists. -/
def goSplitNL : List Nat → List (List Nat)
  | [] => [[]]
  | c :: rest =>
    let r := goSplitNL rest
    if c = 10 then [] :: r
    else
      match r with
      | h :: t => (c :: h) :: t
      | [] => [[c]]

/-- `strconv.Atoi`: optional sign, at least one digit, nothing else,
value within the 64-bit signed range. -/
def goAtoi (s : List Nat) : Option Int :=
  match s with
  | [] => none
  | _ =>
    let p : Bool × List Nat :=
      match s with
      | 43 :: rest => (false, rest)
      | 45 :: rest => (true, rest)
      | _ => (false, s)
    if p.2 = [] then none
    else if p.2.all (fun c => 48 ≤ c && c ≤ 57) then
      let v : Nat := p.2.foldl (fun a c => a * 10 + (c - 48)) 0
      let r : Int := if p.1 then -(v : Int) else (v : Int)
      if r < -(2 ^ 63) ∨ r > 2 ^ 63 - 1 then none else some r
    else none

/-- `unicode.IsSpace` (the White_Space code points). -/
def isSpaceRune (r : Nat) : Bool :=
  r == 9 || r == 10 || r == 11 || r == 12 || r == 13 || r == 32 ||
  r == 133 || r == 160 || r == 5760 ||
  (8192 ≤ r && r ≤ 8202) || r == 8232 || r == 8233 ||
  r == 8239 || r == 8287 || r == 12288

/-- A UTF-8 continuation byte. -/
def isCont (b : Nat) : Bool := 128 ≤ b && b ≤ 191

/-- `utf8.DecodeRune` on the front of the list: the decoded code point
and its byte size; invalid or incomplete input gives `(0xFFFD, 1)`
(and size 0 only for the empty input). -/
def decodeRune : List Nat → Nat × Nat
  | [] => (65533, 0)
  | b0 :: rest =>
    if b0 < 128 then (b0, 1)
    else if 194 ≤ b0 && b0 ≤ 223 then
      match rest with
      | b1 :: _ => if isCont b1 then ((b0 - 192) * 64 + (b1 - 128), 2) else (65533, 1)
      | [] => (65533, 1)
    else if 224 ≤ b0 && b0 ≤ 239 then
      match rest with
      | b1 :: b2 :: _ =>
        let lo1 := if b0 = 224 then 160 else 128
        let hi1 := if b0 = 237 then 159 else 191
        if lo1 ≤ b1 && b1 ≤ hi1 && isCont b2 then
          ((b0 - 224) * 4096 + (b1 - 128) * 64 + (b2 - 128), 3)
        else (65533, 1)
      | _ => (65533, 1)
    else if 240 ≤ b0 && b0 ≤ 244 then
      match rest with
      | b1 :: b2 :: b3 :: _ =>
        let lo1 := if b0 = 240 then 144 else 128
        let hi1 := if b0 = 244 then 143 else 191
        if lo1 ≤ b1 && b1 ≤ hi1 && isCont b2 && isCont b3 then
          ((b0 - 240) * 262144 + (b1 - 128) * 4096 + (b2 - 128) * 64 + (b3 - 128), 4)
        else (65533, 1)
      | _ => (65533, 1)
    else (65533, 1)

/-- A byte that can begin a UTF-8 sequence (`utf8.RuneStart`). -/
def runeStart (b : Nat) : Bool := !isCont b

/-- The backward scan of `utf8.DecodeLastRune`: the largest index in
`[lim, k]` whose byte starts a rune. -/
def scanRuneStart (p : List Nat) (lim : Nat) : Nat → Option Nat
  | 0 => if lim = 0 && runeStart (p.getD 0 0) then some 0 else none
  | k + 1 =>
    if k + 1 < lim then none
    else if runeStart (p.getD (k + 1) 0) then some (k + 1)
    else scanRuneStart p lim k

/-- `utf8.DecodeLastRune`. -/
def decodeLastRune (p : List Nat) : Nat × Nat :=
  match p.getLast? with
  | none => (65533, 0)
  | some lastB =>
    if lastB < 128 then (lastB, 1)
    else
      let e := p.length
      let lim := e - 4
      let start :=
        match scanRuneStart p lim (e - 2) with
        | some k => k
        | none => if lim = 0 then 0 else lim - 1
      let rs := decodeRune (p.drop start)
      if start + rs.2 ≠ e then (65533, 1) else rs

/-- Trim leading white-space runes (fuelled by the byte length). -/
def trimLeftFuel : Nat → List Nat → List Nat
  | 0, s => s
  | f + 1, s =>
    match s with
    | [] => []
    | _ =>
      let rs := decodeRune s
      if isSpaceRune rs.1 then trimLeftFuel f (s.drop rs.2) else s

/-- Trim trailing white-space runes (fuelled by the byte length). -/
def trimRightFuel : Nat → List Nat → List Nat
  | 0, s => s
  | f + 1, s =>
    match s with
    | [] => []
    | _ =>
      let rs := decodeLastRune s
      if isSpaceRune rs.1 then trimRightFuel f (s.take (s.length - rs.2)) else s

/-- `strings.TrimSpace` on byte lists. -/
def goTrimSpace (s : List Nat) : List Nat :=
  trimRightFuel (s.length + 1) (trimLeftFuel (s.length + 1) s)

/-- ASCII bytes of a string literal. -/
def asciiBytes (str : String) : List Nat := str.data.map Char.toNat

/-- Decimal digits of a number, as ASCII bytes. -/
def natBytes (n : Nat) : List Nat := (Nat.toDigits 10 n).map Char.toNat

/-! ### Status bar (`filterStatus`, `statusFields`, `writeStatus`) -/

/-- `filterMatches`: the filter is a contiguous substring of the entry
(a nil filter is the empty string). -/
def filterMatches (s : Repl) (bs : List Nat) : Bool :=
  goContains bs (s.filter.getD [])

/-- The counting loop of `filterStatus`: scanning history from the most
recent entry, `tot` counts the matches and `cur` is the match ordinal of
the selected entry (`−1` when the selected entry was not counted). -/
def filterCounts (s : Repl) : Nat × Int :=
  (List.range s.history.length).reverse.foldl
    (fun (acc : Nat × Int) i =>
      if filterMatches s (s.history.getD i []) then
        (acc.1 + 1, if (i : Int) = s.historyIdx then (acc.1 : Int) else acc.2)
      else acc)
    (0, -1)

/-- `filterStatus`: the status text, or `none` for the code's
`panic("unexpected")` when some entry matches but the selected one was
not seen. -/
def filterStatus (s : Repl) : Option (List Nat) :=
  let tc := filterCounts s
  if tc.1 = 0 then some (asciiBytes "No matches")
  else if tc.2 ≠ -1 then
    some (natBytes (tc.2 + 1).toNat ++ asciiBytes "/" ++ natBytes tc.1 ++
      asciiBytes " matches")
  else none

/-- The state effect of `statusFields`: a negative `viewEnd` is replaced
by the buffer length (the directory and indicator strings are output). -/
def statusFieldsState (s : Repl) : Repl :=
  if s.viewEnd < 0 then { s with viewEnd := (s.buffer.length : Int) } else s

/-- `writeStatus`: nothing when the status row is hidden; otherwise
`boundPromptRow` runs first, then either the reverse-search row (whose
match count can panic) or the normal row (whose `statusFields` mutates
`viewEnd`). -/
def writeStatus (H : Handler) (s : Repl) : Option Repl :=
  if !statusVisible s then some s
  else
    let s := boundPromptRow H s
    if searchActive s then
      let flt := s.filter.getD []
      if flt.length > 0 ∧ s.width > flt.length + 16 + 10 then
        match filterStatus s with
        | none => none
        | some _ => some s
      else some s
    else some (statusFieldsState s)

/-- `stopSearch`: drop the filter and repaint the status row. -/
def stopSearch (H : Handler) (s : Repl) : Option Repl :=
  writeStatus H { s with filter := none }

/-! ### `force` and `addBytesToBuffer`

The two are mutually recursive in the source (`force`'s no-overflow
branch re-adds the bytes through `addBytesToBuffer`), hence the fuel;
the recursion depth of any Go execution is at most two because the
overflow checks of the two functions agree. -/

mutual

/-- `addBytesToBuffer`: fast append path at the end of the buffer when
the result does not overflow, otherwise insertion via `force`. -/
def addBytesToBuffer (H : Handler) : Nat → Repl → List Nat → Option Repl
  | 0, _, _ => none
  | fuel + 1, s, bs =>
    if s.bufferPos = s.buffer.length then
      let s1 : Repl := { s with bufferPos := s.bufferPos + bs.length,
                                buffer := s.buffer ++ bs,
                                bufNil := s.bufNil && bs.isEmpty }
      let os := overflow H s1
      if !os.1 then
        some (boundPromptRow H os.2)
      else
        let s3 : Repl := { os.2 with bufferPos := os.2.bufferPos - bs.length,
                                     buffer := os.2.buffer.take s.buffer.length }
        let newBuffer := s3.buffer.take s3.bufferPos ++ bs ++ s3.buffer.drop s3.bufferPos
        force H fuel s3 newBuffer (s3.bufferPos + bs.length)
    else
      let newBuffer := s.buffer.take s.bufferPos ++ bs ++ s.buffer.drop s.bufferPos
      force H fuel s newBuffer (s.bufferPos + bs.length)

/-- `force(newBuffer, bufferPos)`: on overflow clear the screen, restore
the view bounds, adjust the view and rewrite it; otherwise clear the
prompt region and re-add the bytes, clamping the cursor. A final
`writeStatus` repaints the status row. -/
def force (H : Handler) : Nat → Repl → List Nat → Nat → Option Repl
  | 0, _, _, _ => none
  | fuel + 1, s, newBuffer, bufferPos =>
    if (calcHeight newBuffer (promptLen H) s.width : Int) > innerHeight s then
      let s1 := clearScreenState s
      let s2 : Repl := { s1 with buffer := newBuffer, bufNil := false,
                                 bufferPos := bufferPos,
                                 viewStart := s.viewStart, viewEnd := s.viewEnd }
      (adjustBufferView H s2).bind (fun s3 => writeStatus H s3)
    else
      let s1 := clearBuffer s
      (addBytesToBuffer H fuel s1 newBuffer).bind (fun s2 =>
        let bp := if s2.buffer.length ≤ bufferPos then s2.buffer.length else bufferPos
        writeStatus H { s2 with bufferPos := bp })

end

/-! ### Editor operations -/

/-- `redraw`. -/
def redraw (H : Handler) (s : Repl) : Option Repl :=
  force H 8 s s.buffer s.bufferPos

/-- `syncCursorOverflow`: full redraw when overflowing, cursor sync
(output only) otherwise. -/
def syncCursorOverflow (H : Handler) (s : Repl) : Option Repl :=
  let os := overflow H s
  if os.1 then redraw H os.2 else some os.2

/-- `moveToBufferEnd`. -/
def moveToBufferEnd (H : Handler) (s : Repl) : Option Repl :=
  if searchActive s then stopSearch H s
  else syncCursorOverflow H { s with bufferPos := s.buffer.length }

/-- `moveToBufferStart`. -/
def moveToBufferStart (H : Handler) (s : Repl) : Option Repl :=
  if searchActive s then stopSearch H s
  else syncCursorOverflow H { s with bufferPos := 0 }

/-- `moveLeftOneChar`. -/
def moveLeftOneChar (H : Handler) (s : Repl) : Option Repl :=
  if searchActive s then stopSearch H s
  else if 0 < s.bufferPos then
    let s : Repl := { s with bufferPos := s.bufferPos - 1 }
    let os := overflow H s
    if os.1 ∧ os.2.bufferPos ≤ os.2.viewStart then redraw H os.2
    else some os.2
  else some s

/-- `moveRightOneChar`. -/
def moveRightOneChar (H : Handler) (s : Repl) : Option Repl :=
  if searchActive s then stopSearch H s
  else if s.bufferPos < s.buffer.length then
    let s : Repl := { s with bufferPos := s.bufferPos + 1 }
    let os := overflow H s
    if os.1 ∧ (os.2.bufferPos : Int) ≥ os.2.viewEnd then redraw H os.2
    else some os.2
  else some s

/-- `moveLeftOnePhrase` (note: no reverse-search guard in the source). -/
def moveLeftOnePhrase (H : Handler) (s : Repl) : Option Repl :=
  let pr := prevPhrasePos s
  if pr.2 then
    let s : Repl := { s with bufferPos := pr.1 }
    let os := overflow H s
    if os.1 ∧ os.2.bufferPos ≤ os.2.viewStart then redraw H os.2
    else some os.2
  else some s

/-- `moveRightOnePhrase`. -/
def moveRightOnePhrase (H : Handler) (s : Repl) : Option Repl :=
  let nx := nextPhrasePos s
  if nx.2 then
    let s : Repl := { s with bufferPos := nx.1 }
    let os := overflow H s
    if os.1 ∧ (os.2.bufferPos : Int) ≥ os.2.viewEnd then redraw H os.2
    else some os.2
  else some s

/-- `appendToHistory`: no-op when the entry equals the last one. -/
def appendToHistory (s : Repl) (entry : List Nat) : Repl :=
  if s.history.length = 0 then { s with history := s.history ++ [entry] }
  else if s.history.getLastD [] ≠ entry then { s with history := s.history ++ [entry] }
  else s

/-- `useHistoryEntry(i)`: `−1` restores and clears the backup; any other
index stores the buffer as backup (keeping the Go nil slice nil) and
force-redraws that entry. -/
def useHistoryEntry (H : Handler) (s : Repl) (i : Int) : Option Repl :=
  if i = -1 then
    let s1 : Repl := { s with historyIdx := -1 }
    match s1.backup with
    | some bk =>
      (force H 8 s1 bk bk.length).bind (fun s2 => some { s2 with backup := none })
    | none => some { s1 with backup := none }
  else
    let s1 : Repl := { s with
      backup := if s.backup = none then (if s.bufNil then none else some s.buffer)
        else s.backup,
      historyIdx := i }
    let entry := s1.history.getD i.toNat []
    force H 8 s1 entry entry.length

/-- `historyForward`: with search active, the first more recent matching
entry; otherwise the next entry or the fresh buffer. -/
def historyForward (H : Handler) (s : Repl) : Option Repl :=
  if searchActive s then
    if 0 ≤ s.historyIdx ∧ s.historyIdx < (s.history.length : Int) - 1 then
      match (List.range s.history.length).find?
          (fun (i : Nat) => decide (s.historyIdx < (i : Int)) &&
            filterMatches s (s.history.getD i [])) with
      | some i => useHistoryEntry H s (i : Int)
      | none => some s
    else some s
  else
    if s.historyIdx ≠ -1 then
      if s.historyIdx < (s.history.length : Int) - 1 then
        useHistoryEntry H s (s.historyIdx + 1)
      else useHistoryEntry H s (-1)
    else some s

/-- `historyBack`: with search active, the first older matching entry;
otherwise the previous entry (or the most recent when none selected). -/
def historyBack (H : Handler) (s : Repl) : Option Repl :=
  if searchActive s then
    if 0 < s.historyIdx then
      match (List.range s.history.length).reverse.find?
          (fun (i : Nat) => decide ((i : Int) < s.historyIdx) &&
            filterMatches s (s.history.getD i [])) with
      | some i => useHistoryEntry H s (i : Int)
      | none => some s
    else some s
  else
    if s.historyIdx = -1 then
      if 0 < s.history.length then
        useHistoryEntry H s ((s.history.length : Int) - 1)
      else some s
    else if 0 < s.historyIdx then useHistoryEntry H s (s.historyIdx - 1)
    else some s

/-- `startReverseSearch`: install an empty (non-nil) filter. -/
def startReverseSearch (H : Handler) (s : Repl) : Option Repl :=
  writeStatus H { s with filter := some [] }

/-- `updateSearchResult`: keep the selection when the edited buffer still
matches, otherwise select the most recent matching entry. -/
def updateSearchResult (H : Handler) (s : Repl) : Option Repl :=
  if s.filter = none ∨ s.history.length = 0 ∨ (s.filter.getD []).length = 0 then
    some s
  else if s.historyIdx ≠ -1 ∧ filterMatches s s.buffer then some s
  else
    match (List.range s.history.length).reverse.find?
        (fun i => filterMatches s (s.history.getD i [])) with
    | some i => useHistoryEntry H s (i : Int)
    | none => some s

/-- `tab`: insert the completion returned by the handler for the bytes
before the cursor. -/
def tab (H : Handler) (s : Repl) : Option Repl :=
  let extra := H.tab (s.buffer.take s.bufferPos)
  if 0 < extra.length then addBytesToBuffer H 8 s extra else some s

/-- `backspace`: fast path at the end of the buffer on the same rendered
row without overflow, otherwise a force-redraw. -/
def backspace (H : Handler) (s : Repl) : Option Repl :=
  if 0 < s.buffer.length then
    if 0 < s.bufferPos then
      let newPos := s.bufferPos - 1
      let newBuffer := s.buffer.take newPos ++ s.buffer.drop (newPos + 1)
      let y0 := (cursorCoord H s (-1)).2
      let y1 := (cursorCoord H s (newPos : Int)).2
      if y0 = y1 ∧ s.bufferPos = s.buffer.length then
        let os := overflow H s
        if !os.1 then
          some { os.2 with buffer := newBuffer, bufferPos := newPos, bufNil := false }
        else force H 8 os.2 newBuffer newPos
      else force H 8 s newBuffer newPos
    else some s
  else some s

/-- `backspaceActiveBuffer`: shorten the filter during search, else a
buffer backspace. -/
def backspaceActiveBuffer (H : Handler) (s : Repl) : Option Repl :=
  if searchActive s then
    let flt := s.filter.getD []
    let s : Repl := { s with
      filter := some (if 0 < flt.length then flt.take (flt.length - 1) else flt) }
    (updateSearchResult H s).bind (fun s => writeStatus H s)
  else backspace H s

/-- `deleteChar`. -/
def deleteChar (H : Handler) (s : Repl) : Option Repl :=
  if searchActive s then stopSearch H s
  else if s.bufferPos < s.buffer.length then
    let newBuffer := s.buffer.take s.bufferPos ++
      (if s.bufferPos < s.buffer.length - 1 then s.buffer.drop (s.bufferPos + 1) else [])
    force H 8 s newBuffer s.bufferPos
  else some s

/-- `clearToEnd` (Ctrl-K): a no-op when the cursor is at the end. -/
def clearToEnd (H : Handler) (s : Repl) : Option Repl :=
  if s.bufferPos ≠ s.buffer.length then
    let newBuffer := s.buffer.take s.bufferPos
    let s : Repl := { s with prevDel := s.buffer.drop s.bufferPos }
    force H 8 s newBuffer s.bufferPos
  else some s

/-- `clearToStart` (Ctrl-U). -/
def clearToStart (H : Handler) (s : Repl) : Option Repl :=
  if 0 < s.bufferPos then
    let newBuffer := s.buffer.drop s.bufferPos
    let s : Repl := { s with prevDel := s.buffer.take s.bufferPos }
    force H 8 s newBuffer 0
  else some s

/-- `clearOnePhraseLeft` (Ctrl-W): kill back to the previous phrase
boundary, with a same-row fast path at the end of the buffer.  Go's
`append(r.buffer[0:idx], r.buffer[r.bufferPos:]...)` shares the
buffer's backing array and never reallocates (the result is shorter
than the buffer), so before `r.prevDel = r.buffer[idx:r.bufferPos]` is
read the tail has been moved over the killed region in place:
`r.buffer` then views `mutated` below (`newBuffer` is its prefix), and
`prevDel` picks up the shifted bytes, not the killed ones. -/
def clearOnePhraseLeft (H : Handler) (s : Repl) : Option Repl :=
  let pr := prevPhrasePos s
  if pr.2 then
    let idx := pr.1
    let mutated := s.buffer.take idx ++ s.buffer.drop s.bufferPos ++
      s.buffer.drop (idx + (s.buffer.length - s.bufferPos))
    let newBuffer := s.buffer.take idx ++ s.buffer.drop s.bufferPos
    let newPos := idx
    let s : Repl := { s with buffer := mutated,
                             prevDel := (mutated.take s.bufferPos).drop idx }
    let y0 := (cursorCoord H s (-1)).2
    let c1 := cursorCoord H s (newPos : Int)
    if s.bufferPos = s.buffer.length ∧ y0 = c1.2 ∧ 0 < c1.1 then
      let os := overflow H s
      if !os.1 then
        some { os.2 with bufferPos := newPos, buffer := newBuffer, bufNil := false }
      else force H 8 os.2 newBuffer newPos
    else force H 8 s newBuffer newPos
  else some s

/-- `clearOnePhraseRight` (Ctrl-Q). -/
def clearOnePhraseRight (H : Handler) (s : Repl) : Option Repl :=
  let nx := nextPhrasePos s
  if nx.2 then
    let idx := nx.1
    let newBuffer := s.buffer.take s.bufferPos ++ s.buffer.drop idx
    let newPos := s.bufferPos
    let s : Repl := { s with prevDel := (s.buffer.take idx).drop s.bufferPos }
    force H 8 s newBuffer newPos
  else some s

/-- `insertPrevDel` (yank). -/
def insertPrevDel (H : Handler) (s : Repl) : Option Repl :=
  addBytesToBuffer H 8 s s.prevDel

/-- `evalBuffer` (Enter): trim the buffer, call the evaluator once, log
the printed lines, archive the untrimmed buffer, reset the editor. -/
def evalBuffer (H : Handler) (s : Repl) : Repl :=
  let line := goTrimSpace s.buffer
  let out := H.eval line
  let printed := if 0 < out.length then goSplitNL out else []
  let s : Repl := { s with evalCalls := s.evalCalls ++ [line],
                           printLog := s.printLog ++ printed }
  let s := appendToHistory s s.buffer
  let s : Repl := { s with historyIdx := -1, backup := none }
  resetBuffer s

/-- `redrawScreen` (Ctrl-L). -/
def redrawScreen (H : Handler) (s : Repl) : Option Repl :=
  let buffer := s.buffer
  let bufferPos := s.bufferPos
  force H 8 (clearScreenState s) buffer bufferPos

/-- `handleCursorQuery`: the column is unused; the row updates
`promptRow` and the status row is repainted. -/
def handleCursorQuery (H : Handler) (s : Repl) (_x y : Int) : Option Repl :=
  writeStatus H (updatePromptRow s y)

/-! ### The keystroke dispatcher -/

/-- The single-byte cases of `dispatch` (byte 4, Ctrl-D, quits the
process: no successor state). -/
def dispatch1 (H : Handler) (s : Repl) (c : Nat) : Option Repl :=
  if c = 0 then some s
  else if c = 1 then moveToBufferStart H s
  else if c = 2 then moveLeftOneChar H s
  else if c = 3 then
    (if searchActive s then stopSearch H s else some s).bind (fun s =>
      writeStatus H (clearBuffer s))
  else if c = 4 then none
  else if c = 5 then moveToBufferEnd H s
  else if c = 6 then moveRightOneChar H s
  else if c = 8 then backspaceActiveBuffer H s
  else if c = 9 then
    if searchActive s then stopSearch H s else tab H s
  else if c = 10 then
    if searchActive s then stopSearch H s
    else (addBytesToBuffer H 8 s [10]).bind (fun s => writeStatus H s)
  else if c = 11 then
    if searchActive s then stopSearch H s else clearToEnd H s
  else if c = 12 then redrawScreen H s
  else if c = 13 then
    if searchActive s then stopSearch H s else some (evalBuffer H s)
  else if c = 14 then historyForward H s
  else if c = 16 then historyBack H s
  else if c = 17 then
    if searchActive s then stopSearch H s else clearOnePhraseRight H s
  else if c = 18 then
    if !searchActive s then startReverseSearch H s else some s
  else if c = 21 then
    if searchActive s then stopSearch H s else clearToStart H s
  else if c = 22 then some s
  else if c = 25 then
    if searchActive s then stopSearch H s
    else (insertPrevDel H s).bind (fun s => writeStatus H s)
  else if c = 23 then
    if searchActive s then stopSearch H s else clearOnePhraseLeft H s
  else if c = 27 then
    if searchActive s then stopSearch H s else writeStatus H (clearBuffer s)
  else if c = 127 then backspaceActiveBuffer H s
  else if 32 ≤ c then
    if searchActive s then
      let s : Repl := { s with filter := some (s.filter.getD [] ++ [c]) }
      (updateSearchResult H s).bind (fun s => writeStatus H s)
    else (addBytesToBuffer H 8 s [c]).bind (fun s => writeStatus H s)
  else some s

/-- Parsing `row;col` out of a cursor-position report: a failed `Atoi`
drops the message, but a report with no `;` makes `parts[1]` panic. -/
def parseRowCol (H : Handler) (s : Repl) (payload : List Nat) : Option Repl :=
  match goSplitSemi payload with
  | [] => some s
  | p0 :: rest =>
    match goAtoi p0 with
    | none => some s
    | some row =>
      match rest with
      | [] => none
      | p1 :: _ =>
        match goAtoi p1 with
        | none => some s
        | some col => handleCursorQuery H s (col - 1) (row - 1)

/-- The `ESC [`-prefixed cases of `dispatch`. -/
def dispatchEsc (H : Handler) (s : Repl) (b : List Nat) : Option Repl :=
  let n := b.length
  if n = 3 then
    let c := b.getD 2 0
    if c = 65 then historyBack H s
    else if c = 66 then historyForward H s
    else if c = 67 then moveRightOneChar H s
    else if c = 68 then moveLeftOneChar H s
    else if c = 72 then moveToBufferStart H s
    else if c = 70 then moveToBufferEnd H s
    else some s
  else if n = 4 then
    if b.getD 2 0 = 51 ∧ b.getD 3 0 = 126 then deleteChar H s else some s
  else if n = 6 ∧ b.getD 2 0 = 49 ∧ b.getD 3 0 = 59 then
    if b.getD 4 0 = 53 ∧ b.getD 5 0 = 68 then moveLeftOnePhrase H s
    else if b.getD 4 0 = 53 ∧ b.getD 5 0 = 67 then moveRightOnePhrase H s
    else some s
  else if 5 < n ∧ b.getLastD 0 = 82 then
    parseRowCol H s ((b.drop 2).take (n - 3))
  else some s

/-- The backward scan for `ESC [` in a mixed message ending in `R`. -/
def findEscPos (b : List Nat) : Nat → Option Nat
  | 0 => if b.getD 0 0 = 27 ∧ b.getD 1 0 = 91 then some 0 else none
  | k + 1 =>
    if b.getD (k + 1) 0 = 27 ∧ b.getD (k + 2) 0 = 91 then some (k + 1)
    else findEscPos b k

/-- A message with printable bytes pasted ahead of a cursor report:
parse the report, then insert the printable prefix. -/
def dispatchMixedR (H : Handler) (s : Repl) (b : List Nat) : Option Repl :=
  let n := b.length
  match findEscPos b (n - 2) with
  | none => some s
  | some i =>
    (parseRowCol H s ((b.drop (i + 2)).take (n - 1 - (i + 2)))).bind (fun s =>
      let printable := (b.take i).filter (fun c => 32 ≤ c)
      if 0 < printable.length then
        (addBytesToBuffer H 8 s printable).bind (fun s => writeStatus H s)
      else some s)

/-- `dispatch`: route one keystroke message. -/
def dispatch (H : Handler) (s : Repl) (b : List Nat) : Option Repl :=
  let n := b.length
  if n = 1 then dispatch1 H s (b.getD 0 0)
  else if n = 2 ∧ b.getD 0 0 = 195 then some s
  else if 2 < n ∧ b.getD 0 0 = 27 ∧ b.getD 1 0 = 79 then some s
  else if 2 < n ∧ b.getD 0 0 = 27 ∧ b.getD 1 0 = 91 then dispatchEsc H s b
  else if 6 < n ∧ b.getLastD 0 = 82 then dispatchMixedR H s b
  else some s

/-- Run a list of keystroke messages through the dispatcher. -/
def replRun (H : Handler) (s : Repl) : List (List Nat) → Option Repl
  | [] => some s
  | m :: ms =>
    match dispatch H s m with
    | none => none
    | some s' => replRun H s' ms

/-- The editor states reachable from a freshly constructed `Repl` (any
initial terminal size) by dispatching keystroke messages. -/
inductive Reach (H : Handler) : Repl → Prop
  | init (w h : Nat) : Reach H (newRepl w h)
  | step {s s' : Repl} (m : List Nat) : Reach H s → dispatch H s m = some s' →
      Reach H s'

/-- A fixed benign handler for concrete executions: prompt `"> "`, an
evaluator returning the empty string and a completion callback returning
the empty string. -/
def H0 : Handler :=
  { prompt := [62, 32], eval := fun _ => [], tab := fun _ => [] }

/-! ### Frame lemmas

`core` projects the editor fields that the rendering helpers never touch
(everything except the view window and the prompt row); the lemmas below
show the status/view machinery only moves `viewStart`, `viewEnd` and
`promptRow`. -/

def core (s : Repl) :
    List (List Nat) × Int × List Nat × Bool × Option (List Nat) × List Nat ×
    Option (List Nat) × Nat × Nat × Nat × List (List Nat) × List (List Nat) :=
  (s.history, s.historyIdx, s.buffer, s.bufNil, s.backup, s.prevDel, s.filter,
   s.bufferPos, s.width, s.height, s.evalCalls, s.printLog)

theorem core_fields {s s' : Repl} (h : core s' = core s) :
    s'.history = s.history ∧ s'.historyIdx = s.historyIdx ∧ s'.buffer = s.buffer ∧
    s'.bufNil = s.bufNil ∧ s'.backup = s.backup ∧ s'.prevDel = s.prevDel ∧
    s'.filter = s.filter ∧ s'.bufferPos = s.bufferPos ∧ s'.width = s.width ∧
    s'.height = s.height ∧ s'.evalCalls = s.evalCalls ∧ s'.printLog = s.printLog := by
  simpa [core, Prod.ext_iff] using h

@[simp] theorem core_updatePromptRow (s : Repl) (r : Int) :
    core (updatePromptRow s r) = core s := by
  simp [core, updatePromptRow]

@[simp] theorem core_boundPromptRow (H : Handler) (s : Repl) :
    core (boundPromptRow H s) = core s := by
  simp only [boundPromptRow]
  split <;> split <;> simp

@[simp] theorem core_statusFieldsState (s : Repl) :
    core (statusFieldsState s) = core s := by
  unfold statusFieldsState
  split <;> simp [core]

theorem writeStatus_core {H : Handler} {s s' : Repl}
    (h : writeStatus H s = some s') : core s' = core s := by
  simp only [writeStatus] at h
  split at h
  · simp_all
  · split at h
    · split at h
      · split at h
        · exact absurd h (by simp)
        · simp only [Option.some.injEq] at h
          subst h
          simp
      · simp only [Option.some.injEq] at h
        subst h
        simp
    · simp only [Option.some.injEq] at h
      subst h
      simp

theorem filter_boundPromptRow (H : Handler) (s : Repl) :
    (boundPromptRow H s).filter = s.filter :=
  ((core_fields (core_boundPromptRow H s)).2.2.2.2.2.2).1

/-- `writeStatus` always succeeds when search is inactive. -/
theorem writeStatus_total {H : Handler} {s : Repl} (h : s.filter = none) :
    ∃ s', writeStatus H s = some s' ∧ core s' = core s := by
  unfold writeStatus
  by_cases hv : statusVisible s
  · have hf : searchActive (boundPromptRow H s) = false := by
      simp [searchActive, filter_boundPromptRow, h]
    refine ⟨statusFieldsState (boundPromptRow H s), ?_, by simp⟩
    simp [hv, hf]
  · exact ⟨s, by simp [hv], rfl⟩

theorem calcViewHeight_core {H : Handler} {s : Repl} {p : Nat × Repl}
    (h : calcViewHeight H s = some p) : core p.2 = core s := by
  simp only [calcViewHeight] at h
  split at h <;> split at h
  all_goals
    first
    | exact Option.noConfusion h
    | (simp only [Option.some.injEq] at h
       subst h
       simp [core])

theorem viewOverflow_core {H : Handler} {s : Repl} {p : Bool × Repl}
    (h : viewOverflow H s = some p) : core p.2 = core s := by
  unfold viewOverflow at h
  match hc : calcViewHeight H s with
  | none => simp [hc] at h
  | some q =>
    have hq := calcViewHeight_core hc
    rw [hc] at h
    simp only [Option.map_some', Option.some.injEq] at h
    rw [← h]
    simpa using hq

theorem shrinkEnd_core {H : Handler} :
    ∀ {f : Nat} {s s' : Repl}, shrinkEnd H f s = some s' → core s' = core s := by
  intro f
  induction f with
  | zero => intro s s' h; simp [shrinkEnd] at h
  | succ f ih =>
    intro s s' h
    unfold shrinkEnd at h
    match hv : viewOverflow H s with
    | none => simp [hv] at h
    | some (b, t) =>
      have hc := viewOverflow_core hv
      simp [hv] at h
      split at h
      · exact (ih h).trans (by simpa [core] using hc)
      · simp_all

theorem shrinkStart_core {H : Handler} :
    ∀ {f : Nat} {s s' : Repl}, shrinkStart H f s = some s' → core s' = core s := by
  intro f
  induction f with
  | zero => intro s s' h; simp [shrinkStart] at h
  | succ f ih =>
    intro s s' h
    unfold shrinkStart at h
    match hv : viewOverflow H s with
    | none => simp [hv] at h
    | some (b, t) =>
      have hc := viewOverflow_core hv
      simp [hv] at h
      split at h
      · exact (ih h).trans (by simpa [core] using hc)
      · simp_all

theorem growEnd_core {H : Handler} :
    ∀ {f : Nat} {s s' : Repl}, growEnd H f s = some s' → core s' = core s := by
  intro f
  induction f with
  | zero => intro s s' h; simp [growEnd] at h
  | succ f ih =>
    intro s s' h
    unfold growEnd at h
    match hv : viewOverflow H s with
    | none => simp [hv] at h
    | some (b, t) =>
      have hc := viewOverflow_core hv
      simp [hv] at h
      split at h
      · exact (ih h).trans (by simpa [core] using hc)
      · simp_all

theorem adjustBufferView_core {H : Handler} {s s' : Repl}
    (h : adjustBufferView H s = some s') : core s' = core s := by
  unfold adjustBufferView at h
  split at h
  · exact (shrinkEnd_core h).trans (by simp [core])
  · split at h
    · exact (shrinkStart_core h).trans (by simp [core])
    · match hv : viewOverflow H s with
      | none => simp [hv] at h
      | some (b, t) =>
        have hc := viewOverflow_core hv
        simp [hv] at h
        split at h
        · exact (shrinkEnd_core h).trans ((by simp [core] : core { t with viewEnd := (t.buffer.length : Int) } = core t).trans hc)
        · match hg : growEnd H (viewFuel t) t with
          | none => simp [hg] at h
          | some u =>
            simp [hg] at h
            exact (shrinkEnd_core h).trans ((growEnd_core hg).trans hc)


/-! ### The effect of `force` and `addBytesToBuffer` on the editor core -/

/-- The fields neither `force` nor `addBytesToBuffer` ever changes. -/
def FrameFH (s s' : Repl) : Prop :=
  s'.history = s.history ∧ s'.historyIdx = s.historyIdx ∧ s'.backup = s.backup ∧
  s'.filter = s.filter ∧ s'.prevDel = s.prevDel ∧ s'.evalCalls = s.evalCalls ∧
  s'.printLog = s.printLog ∧ s'.width = s.width ∧ s'.height = s.height

theorem frameFH_rfl (s : Repl) : FrameFH s s := by
  simp [FrameFH]

theorem frameFH_trans {s t u : Repl} (h1 : FrameFH s t) (h2 : FrameFH t u) :
    FrameFH s u := by
  obtain ⟨a1, a2, a3, a4, a5, a6, a7, a8, a9⟩ := h1
  obtain ⟨b1, b2, b3, b4, b5, b6, b7, b8, b9⟩ := h2
  exact ⟨b1.trans a1, b2.trans a2, b3.trans a3, b4.trans a4, b5.trans a5,
    b6.trans a6, b7.trans a7, b8.trans a8, b9.trans a9⟩

theorem frameFH_of_core {s s' : Repl} (h : core s' = core s) : FrameFH s s' := by
  obtain ⟨h1, h2, _, _, h5, h6, h7, _, h9, h10, h11, h12⟩ := core_fields h
  exact ⟨h1, h2, h5, h7, h6, h11, h12, h9, h10⟩

theorem overflow_snd_core (H : Handler) (s : Repl) :
    core (overflow H s).2 = core s := by
  unfold overflow
  split <;> simp [core]

theorem overflow_of_true {H : Handler} {s : Repl}
    (h : (overflow H s).1 = true) : overflow H s = (true, s) := by
  unfold overflow at h ⊢
  split at h <;> simp_all

/-- The joint specification of `force` and `addBytesToBuffer`, by
induction on the fuel: both leave the history, search and register state
alone; `force` installs exactly the new buffer (and the requested cursor
whenever it is within bounds), and `addBytesToBuffer` splices the new
bytes in at the cursor, keeping a nil buffer nil only for empty input. -/
theorem forceAdd_spec (H : Handler) : ∀ fuel : Nat,
    (∀ s nb np s', force H fuel s nb np = some s' →
      FrameFH s s' ∧ s'.bufNil = false ∧ s'.buffer = nb ∧
      (np ≤ nb.length → s'.bufferPos = np)) ∧
    (∀ s bs s', addBytesToBuffer H fuel s bs = some s' →
      FrameFH s s' ∧ (s'.bufNil = true → s.bufNil = true ∧ bs = []) ∧
      s'.buffer = s.buffer.take s.bufferPos ++ bs ++ s.buffer.drop s.bufferPos ∧
      (s.bufferPos ≤ s.buffer.length → s'.bufferPos = s.bufferPos + bs.length)) := by
  intro fuel
  induction fuel with
  | zero =>
    constructor
    · intro s nb np s' h
      simp [force] at h
    · intro s bs s' h
      simp [addBytesToBuffer] at h
  | succ fuel ih =>
    obtain ⟨ihF, ihA⟩ := ih
    constructor
    · -- force
      intro s nb np s' h
      simp only [force] at h
      split at h
      · -- overflow branch
        rw [Option.bind_eq_some] at h
        obtain ⟨s3, ha, hw⟩ := h
        have hc3 := adjustBufferView_core ha
        have hc' := writeStatus_core hw
        have hall := core_fields (hc'.trans hc3)
        simp [clearScreenState, resetBuffer, updatePromptRow] at hall
        obtain ⟨h1, h2, h3, h4, h5, h6, h7, h8, h9, h10, h11, h12⟩ := hall
        exact ⟨⟨h1, h2, h5, h7, h6, h11, h12, h9, h10⟩, h4, h3, fun _ => h8⟩
      · -- no-overflow branch
        rw [Option.bind_eq_some] at h
        obtain ⟨s2, hA, hw⟩ := h
        obtain ⟨hfr, hnil, hbuf, hpos⟩ := ihA _ _ _ hA
        have hcb : (clearBuffer s).buffer = [] ∧ (clearBuffer s).bufferPos = 0 ∧
            (clearBuffer s).bufNil = false ∧ FrameFH s (clearBuffer s) := by
          simp only [clearBuffer, resetBuffer, updatePromptRow, FrameFH]
          split <;> simp
        obtain ⟨hb0, hp0, hn0, hfr0⟩ := hcb
        rw [hb0, hp0] at hbuf
        simp at hbuf
        rw [hp0, hb0] at hpos
        simp at hpos
        have hn2 : s2.bufNil = false := by
          cases hsn : s2.bufNil
          · rfl
          · exact absurd ((hnil hsn).1) (by simp [hn0])
        have hall := core_fields (writeStatus_core hw)
        simp at hall
        obtain ⟨h1, h2, h3, h4, h5, h6, h7, h8, h9, h10, h11, h12⟩ := hall
        refine ⟨frameFH_trans (frameFH_trans hfr0 hfr)
          ⟨h1, h2, h5, h7, h6, h11, h12, h9, h10⟩, by rw [h4, hn2],
          by rw [h3, hbuf], ?_⟩
        intro hle
        rw [h8, hbuf]
        split
        · omega
        · rfl
    · -- addBytesToBuffer
      intro s bs s' h
      simp only [addBytesToBuffer] at h
      split at h
      · -- cursor at the end of the buffer
        rename_i hp
        split at h
        · -- no overflow after appending: fast path
          simp only [Option.some.injEq] at h
          subst h
          have hall := core_fields ((core_boundPromptRow H
            (overflow H { s with bufferPos := s.bufferPos + bs.length, buffer := s.buffer ++ bs, bufNil := s.bufNil && bs.isEmpty }).2).trans
            (overflow_snd_core H _))
          simp at hall
          obtain ⟨h1, h2, h3, h4, h5, h6, h7, h8, h9, h10, h11, h12⟩ := hall
          refine ⟨⟨h1, h2, h5, h7, h6, h11, h12, h9, h10⟩, ?_, ?_, ?_⟩
          · rw [h4]
            intro hx
            obtain ⟨ha, hb⟩ := (Bool.and_eq_true _ _).mp hx
            exact ⟨ha, by simpa using hb⟩
          · rw [h3, hp]
            simp
          · intro _
            rw [h8, hp]
        · -- overflow after appending: revert and insert through force
          rename_i hov
          have hov' : (overflow H { s with bufferPos := s.bufferPos + bs.length, buffer := s.buffer ++ bs, bufNil := s.bufNil && bs.isEmpty }).1 = true := by
            simpa using hov
          rw [overflow_of_true hov'] at h
          dsimp only at h
          have h4' : s.bufferPos + bs.length - bs.length = s.bufferPos := by omega
          rw [h4', hp, List.take_left] at h
          obtain ⟨hfr, hnil, hbuf, hpos⟩ := ihF _ _ _ _ h
          refine ⟨frameFH_trans (by simp [FrameFH]) hfr, by simp [hnil], ?_, ?_⟩
          · rw [hbuf]
            simp [hp]
          · intro _
            rw [hp]
            apply hpos
            simp
      · -- cursor inside the buffer: insert through force
        rename_i hp
        obtain ⟨hfr, hnil, hbuf, hpos⟩ := ihF _ _ _ _ h
        refine ⟨hfr, by simp [hnil], hbuf, ?_⟩
        intro hle
        apply hpos
        simp
        omega

theorem force_spec {H : Handler} {fuel : Nat} {s : Repl} {nb : List Nat}
    {np : Nat} {s' : Repl} (h : force H fuel s nb np = some s') :
    FrameFH s s' ∧ s'.bufNil = false ∧ s'.buffer = nb ∧
    (np ≤ nb.length → s'.bufferPos = np) :=
  (forceAdd_spec H fuel).1 _ _ _ _ h

theorem addBytes_spec {H : Handler} {fuel : Nat} {s : Repl} {bs : List Nat}
    {s' : Repl} (h : addBytesToBuffer H fuel s bs = some s') :
    FrameFH s s' ∧ (s'.bufNil = true → s.bufNil = true ∧ bs = []) ∧
    s'.buffer = s.buffer.take s.bufferPos ++ bs ++ s.buffer.drop s.bufferPos ∧
    (s.bufferPos ≤ s.buffer.length → s'.bufferPos = s.bufferPos + bs.length) :=
  (forceAdd_spec H fuel).2 _ _ _ h

theorem clearBuffer_fields (s : Repl) :
    (clearBuffer s).buffer = [] ∧ (clearBuffer s).bufferPos = 0 ∧
    (clearBuffer s).bufNil = false ∧ (clearBuffer s).history = s.history ∧
    (clearBuffer s).historyIdx = s.historyIdx ∧ (clearBuffer s).backup = s.backup ∧
    (clearBuffer s).prevDel = s.prevDel ∧ (clearBuffer s).filter = s.filter ∧
    (clearBuffer s).width = s.width ∧ (clearBuffer s).height = s.height ∧
    (clearBuffer s).evalCalls = s.evalCalls ∧ (clearBuffer s).printLog = s.printLog := by
  unfold clearBuffer resetBuffer updatePromptRow
  split <;> simp

/-- C10: on Enter with search inactive, the evaluator is called exactly
once with the whitespace-trimmed buffer, the returned lines are printed
only when non-empty, the untrimmed buffer is archived (with
deduplication) and the buffer is reset. -/
theorem c10_enter_eval (H : Handler) (s : Repl) (hf : s.filter = none) :
    dispatch H s [13] = some (evalBuffer H s) ∧
    (evalBuffer H s).evalCalls = s.evalCalls ++ [goTrimSpace s.buffer] ∧
    (evalBuffer H s).printLog = s.printLog ++
      (if 0 < (H.eval (goTrimSpace s.buffer)).length then
        goSplitNL (H.eval (goTrimSpace s.buffer)) else []) ∧
    (evalBuffer H s).history =
      (if s.history.length = 0 then s.history ++ [s.buffer]
       else if s.history.getLastD [] ≠ s.buffer then s.history ++ [s.buffer]
       else s.history) ∧
    (evalBuffer H s).buffer = [] ∧ (evalBuffer H s).bufferPos = 0 := by
  refine ⟨?_, ?_, ?_, ?_, ?_, ?_⟩
  · simp [dispatch, dispatch1, searchActive, hf]
  · simp [evalBuffer, resetBuffer, appendToHistory]
    split
    · rfl
    · split <;> rfl
  · simp [evalBuffer, resetBuffer, appendToHistory]
    split
    · rfl
    · split <;> rfl
  · simp only [evalBuffer, resetBuffer, appendToHistory]
    split <;> split <;> simp_all
  · simp [evalBuffer, resetBuffer, appendToHistory]
  · simp [evalBuffer, resetBuffer, appendToHistory]

/-- C10 witness: the theorem applied to the concrete handler `H0` and a
fresh editor. -/
theorem c10_enter_eval_witness :
    dispatch H0 (newRepl 80 24) [13] = some (evalBuffer H0 (newRepl 80 24)) ∧
    (evalBuffer H0 (newRepl 80 24)).evalCalls =
      (newRepl 80 24).evalCalls ++ [goTrimSpace (newRepl 80 24).buffer] ∧
    (evalBuffer H0 (newRepl 80 24)).printLog = (newRepl 80 24).printLog ++
      (if 0 < (H0.eval (goTrimSpace (newRepl 80 24).buffer)).length then
        goSplitNL (H0.eval (goTrimSpace (newRepl 80 24).buffer)) else []) ∧
    (evalBuffer H0 (newRepl 80 24)).history =
      (if (newRepl 80 24).history.length = 0 then
        (newRepl 80 24).history ++ [(newRepl 80 24).buffer]
       else if (newRepl 80 24).history.getLastD [] ≠ (newRepl 80 24).buffer then
        (newRepl 80 24).history ++ [(newRepl 80 24).buffer]
       else (newRepl 80 24).history) ∧
    (evalBuffer H0 (newRepl 80 24)).buffer = [] ∧
    (evalBuffer H0 (newRepl 80 24)).bufferPos = 0 :=
  c10_enter_eval H0 (newRepl 80 24) rfl

/-! ### Concrete editor states reached in the executions below (the
intermediate states of the keystroke scripts, written out so each
dispatch step evaluates from a literal state). -/

def sA1 : Repl :=
  { history := [], historyIdx := -1, buffer := [120], bufNil := false, backup := none, prevDel := [], filter := none, bufferPos := 1, viewStart := 0, viewEnd := 1, promptRow := -1, width := 80, height := 24, evalCalls := [], printLog := [] }

def sA2 : Repl :=
  { history := [], historyIdx := -1, buffer := [120, 121], bufNil := false, backup := none, prevDel := [], filter := none, bufferPos := 2, viewStart := 0, viewEnd := 2, promptRow := -1, width := 80, height := 24, evalCalls := [], printLog := [] }

def sA3 : Repl :=
  { history := [], historyIdx := -1, buffer := [120, 121], bufNil := false, backup := none, prevDel := [], filter := none, bufferPos := 0, viewStart := 0, viewEnd := -1, promptRow := -1, width := 80, height := 24, evalCalls := [], printLog := [] }

def sA4 : Repl :=
  { history := [], historyIdx := -1, buffer := [], bufNil := false, backup := none, prevDel := [120, 121], filter := none, bufferPos := 0, viewStart := 0, viewEnd := 0, promptRow := 0, width := 80, height := 24, evalCalls := [], printLog := [] }

def sA5 : Repl :=
  { history := [], historyIdx := -1, buffer := [120, 121], bufNil := false, backup := none, prevDel := [120, 121], filter := none, bufferPos := 2, viewStart := 0, viewEnd := 2, promptRow := 0, width := 80, height := 24, evalCalls := [], printLog := [] }

/-- C5 counterexample: from a fresh editor, type `x`, start
reverse-search, then send Ctrl-C (`[3]`).  Search was active, yet the
buffer does not stay `"x"`: it is cleared. -/
def sD2 : Repl :=
  { history := [], historyIdx := -1, buffer := [120], bufNil := false, backup := none, prevDel := [], filter := some [], bufferPos := 1, viewStart := 0, viewEnd := 1, promptRow := -1, width := 80, height := 24, evalCalls := [], printLog := [] }

def sD3 : Repl :=
  { history := [], historyIdx := -1, buffer := [], bufNil := false, backup := none, prevDel := [], filter := none, bufferPos := 0, viewStart := 0, viewEnd := 0, promptRow := 0, width := 80, height := 24, evalCalls := [], printLog := [] }

theorem c5_counterexample :
    (replRun H0 (newRepl 80 24) [[120], [18]]).map
      (fun s => (s.buffer, searchActive s)) = some ([120], true) ∧
    (replRun H0 (newRepl 80 24) [[120], [18], [3]]).map
      (fun s => (s.buffer, s.bufferPos, s.filter)) = some ([], 0, none) := by
  have h1 : dispatch H0 (newRepl 80 24) [120] = some sA1 := by rfl
  have h2 : dispatch H0 sA1 [18] = some sD2 := by rfl
  have h3 : dispatch H0 sD2 [3] = some sD3 := by rfl
  refine ⟨?_, ?_⟩ <;> simp only [replRun, h1, h2, h3] <;> rfl

/-- C5 amended: Ctrl-C with reverse-search active ends the search *and*
clears the buffer (the source has no `else` around `clearBuffer`), for
every handler and state. -/
theorem c5_ctrl_c_clears (H : Handler) (s : Repl) (hs : searchActive s = true) :
    ∃ s', dispatch H s [3] = some s' ∧ s'.filter = none ∧ s'.buffer = [] ∧
      s'.bufferPos = 0 := by
  obtain ⟨s1, hw1, hc1⟩ := @writeStatus_total H { s with filter := none } rfl
  have hf1 := core_fields hc1
  have hfil1 : s1.filter = none := by
    have := hf1.2.2.2.2.2.2.1
    simpa using this
  have hcb : (clearBuffer s1).filter = none := by
    rw [(clearBuffer_fields s1).2.2.2.2.2.2.2.1, hfil1]
  obtain ⟨s2, hw2, hc2⟩ := @writeStatus_total H _ hcb
  have hf2 := core_fields hc2
  refine ⟨s2, ?_, ?_, ?_, ?_⟩
  · simp only [dispatch, dispatch1]
    norm_num
    rw [hs]
    simp only [if_true, stopSearch, hw1, Option.bind_some]
    exact hw2
  · rw [hf2.2.2.2.2.2.2.1, hcb]
  · rw [hf2.2.2.1, (clearBuffer_fields s1).1]
  · rw [hf2.2.2.2.2.2.2.2.1, (clearBuffer_fields s1).2.1]

/-- C5 amended, witness: the reachable state after typing `x` and
starting reverse-search. -/
theorem c5_ctrl_c_clears_witness :
    ∃ s', dispatch H0 sD2 [3] = some s' ∧
      s'.filter = none ∧ s'.buffer = [] ∧ s'.bufferPos = 0 :=
  c5_ctrl_c_clears H0 sD2 rfl

/-- C2 counterexample: after typing `"xy"` (cursor 2, the end of the
buffer), the message `[11]` is a no-op — `clearToEnd` requires the
cursor to be strictly left of the end — so the buffer stays `"xy"` and
`prevDeletion` stays empty, contradicting the claimed `""`/`"xy"`. -/
theorem c2_counterexample :
    (replRun H0 (newRepl 80 24) [[120], [121], [11]]).map
      (fun s => (s.buffer, s.prevDel)) = some ([120, 121], []) ∧
    ([120, 121] : List Nat) ≠ [] ∧ ([] : List Nat) ≠ [120, 121] := by
  have h1 : dispatch H0 (newRepl 80 24) [120] = some sA1 := by rfl
  have h2 : dispatch H0 sA1 [121] = some sA2 := by rfl
  have h3 : dispatch H0 sA2 [11] = some sA2 := by rfl
  refine ⟨?_, by decide, by decide⟩
  simp only [replRun, h1, h2, h3]
  rfl

/-- C2 amended: with the cursor at 0 instead (Ctrl-A first), `[11]`
kills the whole buffer into `prevDeletion` and `[25]` re-inserts it,
restoring buffer `"xy"` with cursor 2. -/
theorem c2_kill_at_start_yank :
    (replRun H0 (newRepl 80 24) [[120], [121], [1], [11]]).map
      (fun s => (s.buffer, s.bufferPos, s.prevDel)) = some ([], 0, [120, 121]) ∧
    (replRun H0 (newRepl 80 24) [[120], [121], [1], [11], [25]]).map
      (fun s => (s.buffer, s.bufferPos)) = some ([120, 121], 2) := by
  have h1 : dispatch H0 (newRepl 80 24) [120] = some sA1 := by rfl
  have h2 : dispatch H0 sA1 [121] = some sA2 := by rfl
  have h3 : dispatch H0 sA2 [1] = some sA3 := by rfl
  have h4 : dispatch H0 sA3 [11] = some sA4 := by rfl
  have h5 : dispatch H0 sA4 [25] = some sA5 := by rfl
  refine ⟨?_, ?_⟩ <;> simp only [replRun, h1, h2, h3, h4, h5] <;> rfl

def sB1 : Repl :=
  { history := [], historyIdx := -1, buffer := [97], bufNil := false, backup := none, prevDel := [], filter := none, bufferPos := 1, viewStart := 0, viewEnd := 1, promptRow := -1, width := 20, height := 24, evalCalls := [], printLog := [] }

def sB2 : Repl :=
  { history := [], historyIdx := -1, buffer := [97, 98], bufNil := false, backup := none, prevDel := [], filter := none, bufferPos := 2, viewStart := 0, viewEnd := 2, promptRow := -1, width := 20, height := 24, evalCalls := [], printLog := [] }

def sB3 : Repl :=
  { history := [], historyIdx := -1, buffer := [97, 98, 32], bufNil := false, backup := none, prevDel := [], filter := none, bufferPos := 3, viewStart := 0, viewEnd := 3, promptRow := -1, width := 20, height := 24, evalCalls := [], printLog := [] }

def sB4 : Repl :=
  { history := [], historyIdx := -1, buffer := [97, 98, 32, 99], bufNil := false, backup := none, prevDel := [], filter := none, bufferPos := 4, viewStart := 0, viewEnd := 4, promptRow := -1, width := 20, height := 24, evalCalls := [], printLog := [] }

def sB5 : Repl :=
  { history := [], historyIdx := -1, buffer := [97, 98, 32, 99, 100], bufNil := false, backup := none, prevDel := [], filter := none, bufferPos := 5, viewStart := 0, viewEnd := 5, promptRow := -1, width := 20, height := 24, evalCalls := [], printLog := [] }

def sB6 : Repl :=
  { history := [], historyIdx := -1, buffer := [97, 98, 32, 99, 100, 32], bufNil := false, backup := none, prevDel := [], filter := none, bufferPos := 6, viewStart := 0, viewEnd := 6, promptRow := -1, width := 20, height := 24, evalCalls := [], printLog := [] }

def sB7 : Repl :=
  { history := [], historyIdx := -1, buffer := [97, 98, 32, 99, 100, 32, 101], bufNil := false, backup := none, prevDel := [], filter := none, bufferPos := 7, viewStart := 0, viewEnd := 7, promptRow := -1, width := 20, height := 24, evalCalls := [], printLog := [] }

def sB8 : Repl :=
  { history := [], historyIdx := -1, buffer := [97, 98, 32, 99, 100, 32, 101, 102], bufNil := false, backup := none, prevDel := [], filter := none, bufferPos := 8, viewStart := 0, viewEnd := 8, promptRow := -1, width := 20, height := 24, evalCalls := [], printLog := [] }

def sB9 : Repl :=
  { history := [], historyIdx := -1, buffer := [97, 98, 32, 99, 100, 32, 101, 102], bufNil := false, backup := none, prevDel := [], filter := none, bufferPos := 6, viewStart := 0, viewEnd := -1, promptRow := -1, width := 20, height := 24, evalCalls := [], printLog := [] }

def sB10 : Repl :=
  { history := [], historyIdx := -1, buffer := [97, 98, 32, 99, 100, 32, 101, 102], bufNil := false, backup := none, prevDel := [], filter := none, bufferPos := 5, viewStart := 0, viewEnd := -1, promptRow := -1, width := 20, height := 24, evalCalls := [], printLog := [] }

def sB11 : Repl :=
  { history := [], historyIdx := -1, buffer := [97, 98, 32, 99, 100, 32, 101, 102], bufNil := false, backup := none, prevDel := [], filter := none, bufferPos := 3, viewStart := 0, viewEnd := -1, promptRow := -1, width := 20, height := 24, evalCalls := [], printLog := [] }

/-- The Ctrl-Left message and the `"ab cd ef"` typing script. -/
def ctrlLeft : List Nat := [27, 91, 49, 59, 53, 68]

def typeAbCdEf : List (List Nat) :=
  [[97], [98], [32], [99], [100], [32], [101], [102]]

/-- C4 counterexample: on width 20 with buffer `"ab cd ef"` and cursor
8, the *second* Ctrl-Left stops at 5 (the end of `"cd"`), not at 3 as
claimed — the phrase boundary set of `"ab cd ef"` is `{0,2,3,5,6,8}` and
5 is the nearest boundary strictly left of 6. -/
theorem c4_counterexample :
    (replRun H0 (newRepl 20 24) (typeAbCdEf ++ [ctrlLeft, ctrlLeft])).map
      Repl.bufferPos = some 5 ∧ (5 : Nat) ≠ 3 := by
  have h1 : dispatch H0 (newRepl 20 24) [97] = some sB1 := by rfl
  have h2 : dispatch H0 sB1 [98] = some sB2 := by rfl
  have h3 : dispatch H0 sB2 [32] = some sB3 := by rfl
  have h4 : dispatch H0 sB3 [99] = some sB4 := by rfl
  have h5 : dispatch H0 sB4 [100] = some sB5 := by rfl
  have h6 : dispatch H0 sB5 [32] = some sB6 := by rfl
  have h7 : dispatch H0 sB6 [101] = some sB7 := by rfl
  have h8 : dispatch H0 sB7 [102] = some sB8 := by rfl
  have h9 : dispatch H0 sB8 ctrlLeft = some sB9 := by rfl
  have h10 : dispatch H0 sB9 ctrlLeft = some sB10 := by rfl
  refine ⟨?_, by decide⟩
  simp only [typeAbCdEf, List.cons_append, List.nil_append, replRun,
    h1, h2, h3, h4, h5, h6, h7, h8, h9, h10]
  rfl

/-- C4 amended: the three Ctrl-Left presses move the cursor to 6, then
5, then 3 — each press jumps to the nearest phrase start/end position
strictly left of the cursor, the boundary positions of `"ab cd ef"`
being `[0, 2, 3, 5, 6, 8]`. -/
theorem c4_ctrl_left_steps :
    phraseStartPositions [97, 98, 32, 99, 100, 32, 101, 102] = [0, 2, 3, 5, 6, 8] ∧
    (replRun H0 (newRepl 20 24) (typeAbCdEf ++ [ctrlLeft])).map
      Repl.bufferPos = some 6 ∧
    (replRun H0 (newRepl 20 24) (typeAbCdEf ++ [ctrlLeft, ctrlLeft])).map
      Repl.bufferPos = some 5 ∧
    (replRun H0 (newRepl 20 24) (typeAbCdEf ++ [ctrlLeft, ctrlLeft, ctrlLeft])).map
      Repl.bufferPos = some 3 := by
  have h1 : dispatch H0 (newRepl 20 24) [97] = some sB1 := by rfl
  have h2 : dispatch H0 sB1 [98] = some sB2 := by rfl
  have h3 : dispatch H0 sB2 [32] = some sB3 := by rfl
  have h4 : dispatch H0 sB3 [99] = some sB4 := by rfl
  have h5 : dispatch H0 sB4 [100] = some sB5 := by rfl
  have h6 : dispatch H0 sB5 [32] = some sB6 := by rfl
  have h7 : dispatch H0 sB6 [101] = some sB7 := by rfl
  have h8 : dispatch H0 sB7 [102] = some sB8 := by rfl
  have h9 : dispatch H0 sB8 ctrlLeft = some sB9 := by rfl
  have h10 : dispatch H0 sB9 ctrlLeft = some sB10 := by rfl
  have h11 : dispatch H0 sB10 ctrlLeft = some sB11 := by rfl
  refine ⟨by rfl, ?_, ?_, ?_⟩ <;>
    simp only [typeAbCdEf, List.cons_append, List.nil_append, replRun,
      h1, h2, h3, h4, h5, h6, h7, h8, h9, h10, h11] <;>
    rfl

def sC2 : Repl :=
  { history := [], historyIdx := -1, buffer := [120, 49], bufNil := false, backup := none, prevDel := [], filter := none, bufferPos := 2, viewStart := 0, viewEnd := 2, promptRow := -1, width := 80, height := 24, evalCalls := [], printLog := [] }

def sC3 : Repl :=
  { history := [[120, 49]], historyIdx := -1, buffer := [], bufNil := false, backup := none, prevDel := [], filter := none, bufferPos := 0, viewStart := 0, viewEnd := -1, promptRow := -1, width := 80, height := 24, evalCalls := [[120, 49]], printLog := [] }

def sC4 : Repl :=
  { history := [[120, 49]], historyIdx := -1, buffer := [97], bufNil := false, backup := none, prevDel := [], filter := none, bufferPos := 1, viewStart := 0, viewEnd := 1, promptRow := -1, width := 80, height := 24, evalCalls := [[120, 49]], printLog := [] }

def sC5 : Repl :=
  { history := [[120, 49]], historyIdx := -1, buffer := [97, 97], bufNil := false, backup := none, prevDel := [], filter := none, bufferPos := 2, viewStart := 0, viewEnd := 2, promptRow := -1, width := 80, height := 24, evalCalls := [[120, 49]], printLog := [] }

def sC6 : Repl :=
  { history := [[120, 49], [97, 97]], historyIdx := -1, buffer := [], bufNil := false, backup := none, prevDel := [], filter := none, bufferPos := 0, viewStart := 0, viewEnd := -1, promptRow := -1, width := 80, height := 24, evalCalls := [[120, 49], [97, 97]], printLog := [] }

def sC7 : Repl :=
  { history := [[120, 49], [97, 97]], historyIdx := 1, buffer := [97, 97], bufNil := false, backup := some [], prevDel := [], filter := none, bufferPos := 2, viewStart := 0, viewEnd := 2, promptRow := 0, width := 80, height := 24, evalCalls := [[120, 49], [97, 97]], printLog := [] }

def sC8 : Repl :=
  { history := [[120, 49], [97, 97]], historyIdx := 1, buffer := [97, 97, 120], bufNil := false, backup := some [], prevDel := [], filter := none, bufferPos := 3, viewStart := 0, viewEnd := 3, promptRow := 0, width := 80, height := 24, evalCalls := [[120, 49], [97, 97]], printLog := [] }

def sC9 : Repl :=
  { history := [[120, 49], [97, 97]], historyIdx := 1, buffer := [97, 97, 120], bufNil := false, backup := some [], prevDel := [], filter := some [], bufferPos := 3, viewStart := 0, viewEnd := 3, promptRow := 0, width := 80, height := 24, evalCalls := [[120, 49], [97, 97]], printLog := [] }

/-- The keystroke script reaching the reverse-search panic: type `x1`,
Enter, type `aa`, Enter, Up (select `"aa"`), type `x` (edit the selected
entry to `"aax"`), Ctrl-R, then type `x`. -/
def panicScript : List (List Nat) :=
  [[120], [49], [13], [97], [97], [13], [27, 91, 65], [120], [18]]

/-- C6: the status renderer *can* fail on a reachable state.  After
`panicScript` the editor is in `sC9`: reverse search is active on a
selected, edited history entry.  Typing `x` extends the filter to
`"x"`; the edited buffer `"aax"` still matches so the selection is kept,
but the selected entry `"aa"` does not match while `"x1"` does, so
`filterStatus` reaches its `panic("unexpected")` branch: the dispatch of
the final byte has no successor state. -/
theorem c6_filter_status_panics :
    replRun H0 (newRepl 80 24) panicScript = some sC9 ∧
    searchActive sC9 = true ∧
    filterStatus { sC9 with filter := some [120] } = none ∧
    dispatch H0 sC9 [120] = none := by
  have h1 : dispatch H0 (newRepl 80 24) [120] = some sA1 := by rfl
  have h2 : dispatch H0 sA1 [49] = some sC2 := by rfl
  have h3 : dispatch H0 sC2 [13] = some sC3 := by rfl
  have h4 : dispatch H0 sC3 [97] = some sC4 := by rfl
  have h5 : dispatch H0 sC4 [97] = some sC5 := by rfl
  have h6 : dispatch H0 sC5 [13] = some sC6 := by rfl
  have h7 : dispatch H0 sC6 [27, 91, 65] = some sC7 := by rfl
  have h8 : dispatch H0 sC7 [120] = some sC8 := by rfl
  have h9 : dispatch H0 sC8 [18] = some sC9 := by rfl
  refine ⟨?_, by rfl, by rfl, by rfl⟩
  simp only [panicScript, replRun, h1, h2, h3, h4, h5, h6, h7, h8, h9]

/-- A handler whose Tab callback returns the control byte 1. -/
def Hbad : Handler :=
  { prompt := [62, 32], eval := fun _ => [], tab := fun _ => [1] }

/-- C8 counterexample: the invariant does not hold for arbitrary Tab
callbacks — Tab output is inserted into the buffer unfiltered, so a
callback returning byte 1 puts byte 1 (neither `0x0A` nor `≥ 0x20`)
into the buffer. -/
theorem c8_counterexample :
    (dispatch Hbad (newRepl 80 24) [9]).map Repl.buffer = some [1] ∧
    ¬((1 : Nat) = 10 ∨ 32 ≤ (1 : Nat)) := by
  exact ⟨by rfl, by decide⟩

/-! ### C9: the layout walk -/

/-- Modelled from the spec's words (§4.4): for each byte before
`cursorByte`, a newline advances y and resets x to 0, any other byte
advances x, and whenever x reaches `width` it wraps to x = 0 with y
advanced. -/
def specRelCoordStep (width : Nat) (p : Nat × Nat) (c : Nat) : Nat × Nat :=
  let q := if c = 10 then (0, p.2 + 1) else (p.1 + 1, p.2)
  if q.1 = width then (0, q.2 + 1) else q

/-- The spec's reference walk over the bytes before the cursor. -/
def specRelCoord (bytes : List Nat) (startX : Nat) (cursorByte : Nat)
    (width : Nat) : Nat × Nat :=
  (bytes.take cursorByte).foldl (specRelCoordStep width) (startX, 0)

theorem relCoordGo_eq_foldl (w : Nat) :
    ∀ (l : List Nat) (x y : Nat),
      relCoordGo w l x y = l.foldl (specRelCoordStep w) (x, y) := by
  intro l
  induction l with
  | nil => intro x y; rfl
  | cons c t ih =>
    intro x y
    simp only [relCoordGo, List.foldl_cons, specRelCoordStep]
    by_cases hc : c = 10 <;> simp only [hc, if_pos, if_neg, if_true, if_false] <;>
      split <;> simp_all [ih]

/-- The state of the spec's scenario 6: prompt `"> "`, width 5, buffer
`"abcdef"`, prompt row `r`. -/
def sE (r : Int) : Repl :=
  { history := [], historyIdx := -1, buffer := [97, 98, 99, 100, 101, 102], bufNil := false, backup := none, prevDel := [], filter := none, bufferPos := 6, viewStart := 0, viewEnd := -1, promptRow := r, width := 5, height := 24, evalCalls := [], printLog := [] }

/-- C9: `relCursorCoord` equals the spec's reference walk on every
input, and on prompt `"> "` (startX 2), width 5, buffer `"abcdef"`, the
coordinate of byte index 6 is x = 3 one row below the prompt row. -/
theorem c9_rel_coord_walk :
    (∀ (bytes : List Nat) (startX cursorByte width : Nat),
      relCursorCoord bytes startX cursorByte width =
        specRelCoord bytes startX cursorByte width) ∧
    relCursorCoord [97, 98, 99, 100, 101, 102] 2 6 5 = (3, 1) ∧
    (∀ r : Int, cursorCoord H0 (sE r) 6 = (3, r + 1)) := by
  refine ⟨?_, by rfl, ?_⟩
  · intro bytes startX cursorByte width
    exact relCoordGo_eq_foldl width (bytes.take cursorByte) startX 0
  · intro r
    have hx : relCursorCoord [97, 98, 99, 100, 101, 102]
        (promptLen H0) (Int.toNat 6) 5 = (3, 1) := by rfl
    simp only [cursorCoord, sE]
    norm_num
    rw [hx]
    constructor
    · rfl
    · omega

/-! ### C1: phrase kill and yank

First the order structure of `phraseStartPositions`: the match runs are
disjoint, in order, and inside the buffer, so the boundary list is
strictly increasing and bounded by the buffer length. -/

/-- Well-formed run list: starts at or after `lo`, each run non-empty
and ending by `hi`, runs separated by at least one byte. -/
def RunsOK (hi : Nat) : Nat → List (Nat × Nat) → Prop
  | _, [] => True
  | lo, (a, b) :: rest => lo ≤ a ∧ a < b ∧ b ≤ hi ∧ RunsOK hi (b + 1) rest

theorem runsOK_mono {hi : Nat} :
    ∀ {r : List (Nat × Nat)} {lo lo' : Nat}, lo' ≤ lo → RunsOK hi lo r →
      RunsOK hi lo' r := by
  intro r
  induction r with
  | nil => intro lo lo' _ _; trivial
  | cons p rest _ =>
    intro lo lo' hle h
    obtain ⟨h1, h2, h3, h4⟩ := h
    exact ⟨hle.trans h1, h2, h3, h4⟩

theorem phraseRuns_ok :
    ∀ (l : List Nat) (i : Nat),
      RunsOK (i + l.length) i (phraseRuns l i none) ∧
      (∀ st, st < i → ∃ b rest, phraseRuns l i (some st) = (st, b) :: rest ∧
        i ≤ b ∧ b ≤ i + l.length ∧ RunsOK (i + l.length) (b + 1) rest) := by
  intro l
  induction l with
  | nil =>
    intro i
    refine ⟨trivial, ?_⟩
    intro st hst
    exact ⟨i, [], rfl, le_refl i, by simp, trivial⟩
  | cons c t ih =>
    intro i
    have iht := ih (i + 1)
    constructor
    · by_cases hc : isPhraseByte c
      · simp only [phraseRuns, hc, if_true]
        obtain ⟨b, rest, heq, hb1, hb2, hb3⟩ := iht.2 i (by omega)
        rw [heq]
        refine ⟨le_refl i, by omega, by simp; omega, ?_⟩
        exact runsOK_mono (le_refl _) (by
          have : i + 1 + t.length = i + (t.length + 1) := by omega
          rw [this] at hb3
          exact hb3)
      · simp only [phraseRuns, hc, if_false]
        have := iht.1
        have h2 : i + 1 + t.length = i + (t.length + 1) := by omega
        rw [h2] at this
        exact runsOK_mono (by omega) this
    · intro st hst
      by_cases hc : isPhraseByte c
      · simp only [phraseRuns, hc, if_true]
        obtain ⟨b, rest, heq, hb1, hb2, hb3⟩ := iht.2 st (by omega)
        rw [heq]
        refine ⟨b, rest, rfl, by omega, ?_, ?_⟩
        · simp
          omega
        · have h2 : i + 1 + t.length = i + (t.length + 1) := by omega
          rw [h2] at hb3
          exact hb3
      · simp only [phraseRuns, hc, if_false]
        refine ⟨i, phraseRuns t (i + 1) none, rfl, le_refl i, by simp, ?_⟩
        have := iht.1
        have h2 : i + 1 + t.length = i + (t.length + 1) := by omega
        rw [h2] at this
        exact this

theorem phraseStartAux_props (len n : Nat) :
    ∀ (R : List (Nat × Nat)) (i lo : Nat),
      RunsOK len lo R → i + R.length = n →
      List.Pairwise (· < ·) (phraseStartAux len n i R) ∧
      (∀ x ∈ phraseStartAux len n i R, x ≤ len) ∧
      (i ≠ 0 → ∀ x ∈ phraseStartAux len n i R, lo ≤ x) := by
  intro R
  induction R with
  | nil =>
    intro i lo _ _
    refine ⟨by simp [phraseStartAux], by simp [phraseStartAux], ?_⟩
    intro _ x hx
    simp [phraseStartAux] at hx
  | cons p rest ih =>
    intro i lo hok hcount
    obtain ⟨a, b⟩ := p
    obtain ⟨hla, hab, hbl, hrest⟩ := hok
    match rest, hcount with
    | [], hcount =>
      have hrec : phraseStartAux len n (i + 1) [] = [] := rfl
      simp only [phraseStartAux, hrec, List.append_nil]
      refine ⟨?_, ?_, ?_⟩
      · split <;> split <;>
          simp only [List.nil_append, List.cons_append, List.append_nil] <;>
          simp [List.pairwise_cons] <;>
          omega
      · split <;> split <;>
          simp only [List.nil_append, List.cons_append, List.append_nil] <;>
          simp [List.forall_mem_cons] <;>
          omega
      · intro hi0
        split <;> split <;>
          simp only [List.nil_append, List.cons_append, List.append_nil] <;>
          simp [List.forall_mem_cons] <;>
          omega
    | q :: rest', hcount =>
      have hne : i ≠ n - 1 := by
        simp at hcount
        omega
      have hpost : ¬(i = n - 1 ∧ b ≠ len) := by
        intro hc
        exact hne hc.1
      obtain ⟨ihc, ihb, ihl⟩ := ih (i + 1) (b + 1) hrest (by simp at hcount ⊢; omega)
      have hlow := ihl (by omega)
      have hcore : List.Pairwise (fun x1 x2 => x1 < x2)
          (a :: b :: phraseStartAux len n (i + 1) (q :: rest')) := by
        rw [List.pairwise_cons, List.pairwise_cons]
        refine ⟨?_, ?_, ihc⟩
        · intro y hy
          rcases List.mem_cons.mp hy with rfl | hy
          · exact hab
          · have := hlow y hy
            omega
        · intro y hy
          have := hlow y hy
          omega
      have hunf : phraseStartAux len n i ((a, b) :: q :: rest') =
          (if i = 0 ∧ a ≠ 0 then [0] else []) ++ [a, b] ++
          phraseStartAux len n (i + 1) (q :: rest') := by
        conv_lhs => rw [phraseStartAux]
        rw [if_neg hpost]
        simp
      refine ⟨?_, ?_, ?_⟩
      · rw [hunf]
        split
        · rename_i h1
          simp only [List.cons_append, List.nil_append]
          rw [List.pairwise_cons]
          refine ⟨?_, hcore⟩
          intro y hy
          rcases List.mem_cons.mp hy with rfl | hy
          · omega
          · rcases List.mem_cons.mp hy with rfl | hy
            · omega
            · have := hlow y hy
              omega
        · simp only [List.nil_append]
          exact hcore
      · intro x hx
        rw [hunf] at hx
        split at hx <;> simp only [List.cons_append, List.nil_append,
          List.mem_cons] at hx
        · rcases hx with rfl | rfl | rfl | h
          · omega
          · omega
          · omega
          · exact ihb _ h
        · rcases hx with rfl | rfl | h
          · omega
          · omega
          · exact ihb _ h
      · intro hi0 x hx
        rw [hunf] at hx
        split at hx
        · rename_i hcond
          exact absurd hcond.1 hi0
        · simp only [List.nil_append, List.cons_append, List.mem_cons] at hx
          rcases hx with rfl | rfl | h
          · exact hla
          · omega
          · have := hlow x h
            omega

theorem getLastD_mem : ∀ (l : List Nat) (d : Nat), l ≠ [] → l.getLastD d ∈ l := by
  intro l
  induction l with
  | nil => intro d h; exact absurd rfl h
  | cons a t ih =>
    intro d _
    rw [List.getLastD_cons]
    cases t with
    | nil => simp [List.getLastD]
    | cons b t' => exact List.mem_cons_of_mem _ (ih a (by simp))

theorem mem_le_getLastD : ∀ (l : List Nat), List.Pairwise (· < ·) l →
    ∀ x ∈ l, ∀ d, x ≤ l.getLastD d := by
  intro l
  induction l with
  | nil => intro _ x hx; simp at hx
  | cons a t ih =>
    intro hp x hx d
    rw [List.pairwise_cons] at hp
    cases t with
    | nil =>
      simp at hx
      subst hx
      simp [List.getLastD_cons, List.getLastD]
    | cons b t' =>
      rw [List.getLastD_cons]
      rcases List.mem_cons.mp hx with rfl | hx
      · have hb := ih hp.2 b (List.mem_cons_self _ _) x
        have := hp.1 b (List.mem_cons_self _ _)
        omega
      · exact ih hp.2 x hx a

/-- `phraseStartPositions` is strictly increasing and bounded by the
buffer length. -/
theorem phraseStartPositions_sorted (buffer : List Nat) :
    List.Pairwise (· < ·) (phraseStartPositions buffer) ∧
    ∀ x ∈ phraseStartPositions buffer, x ≤ buffer.length := by
  simp only [phraseStartPositions]
  split
  · rename_i h
    simp_all
  · have hok := (phraseRuns_ok buffer 0).1
    rw [Nat.zero_add] at hok
    obtain ⟨hc, hb, _⟩ := phraseStartAux_props buffer.length
      (findAllIndex buffer).length (findAllIndex buffer) 0 0 hok (by simp)
    split
    · rename_i hcond
      constructor
      · rw [List.pairwise_append]
        refine ⟨hc, by simp, ?_⟩
        intro x hx y hy
        simp only [List.mem_singleton] at hy
        subst hy
        rcases hcond with hnil | hlast
        · rw [hnil] at hx
          simp at hx
        · have h1 := hb x hx
          have h2 := mem_le_getLastD _ hc x hx 0
          have h3 := hb _ (getLastD_mem _ 0 (by
            intro hn
            rw [hn] at hx
            simp at hx))
          omega
      · intro x hx
        rcases List.mem_append.mp hx with hx | hx
        · exact hb x hx
        · simp only [List.mem_singleton] at hx
          omega
    · exact ⟨hc, hb⟩

theorem find_desc_max :
    ∀ {m : List Nat}, List.Pairwise (· > ·) m → ∀ {pos y : Nat},
      m.find? (fun idx => decide (idx < pos)) = some y →
      y ∈ m ∧ y < pos ∧ ∀ j ∈ m, j < pos → j ≤ y := by
  intro m
  induction m with
  | nil => intro _ pos y h; simp at h
  | cons a t ih =>
    intro hp pos y h
    rw [List.pairwise_cons] at hp
    by_cases ha : a < pos
    · rw [List.find?_cons_of_pos _ (by simpa using ha)] at h
      simp only [Option.some.injEq] at h
      subst h
      refine ⟨List.mem_cons_self _ _, ha, ?_⟩
      intro j hj _
      rcases List.mem_cons.mp hj with rfl | hj
      · exact le_refl _
      · exact le_of_lt (hp.1 j hj)
    · rw [List.find?_cons_of_neg _ (by simpa using ha)] at h
      obtain ⟨h1, h2, h3⟩ := ih hp.2 h
      refine ⟨List.mem_cons_of_mem _ h1, h2, ?_⟩
      intro j hj hjp
      rcases List.mem_cons.mp hj with rfl | hj
      · exact absurd hjp ha
      · exact h3 j hj hjp

/-- `prevPhrasePos` returns exactly the greatest phrase boundary
strictly left of the cursor, whenever one exists. -/
theorem prevPhrasePos_max (s : Repl) (idx : Nat)
    (hmem : idx ∈ phraseStartPositions s.buffer) (hlt : idx < s.bufferPos)
    (hmax : ∀ j ∈ phraseStartPositions s.buffer, j < s.bufferPos → j ≤ idx) :
    prevPhrasePos s = (idx, true) := by
  have hpos0 : ¬(s.bufferPos = 0) := by omega
  have hsorted := (phraseStartPositions_sorted s.buffer).1
  have hdesc : List.Pairwise (· > ·) (phraseStartPositions s.buffer).reverse := by
    rw [List.pairwise_reverse]
    exact hsorted
  have hex : ∃ x ∈ (phraseStartPositions s.buffer).reverse,
      (fun i => decide (i < s.bufferPos)) x = true :=
    ⟨idx, by simpa using hmem, by simpa using hlt⟩
  obtain ⟨y, hy⟩ := Option.isSome_iff_exists.mp (List.find?_isSome.mpr hex)
  obtain ⟨hmemy, hlty, hmaxy⟩ := find_desc_max hdesc hy
  have h1 : y ≤ idx := hmax y (by simpa using hmemy) hlty
  have h2 : idx ≤ y := hmaxy idx (by simpa using hmem) hlt
  have hyi : y = idx := le_antisymm h1 h2
  subst hyi
  unfold prevPhrasePos
  rw [if_neg hpos0, hy]
  simp only [Option.getD_some, Prod.mk.injEq]
  constructor
  · trivial
  · simp
    omega

/-! ### Totality of the view machinery on sane terminals

When the inner area has at least one row and the cursor is inside the
buffer, every view loop terminates normally (the fuel supplied is larger
than the number of iterations, and no slice panic occurs). -/

theorem calcHeight_nil (x0 w : Nat) : calcHeight [] x0 w = 1 := rfl

theorem calcViewHeight_some {H : Handler} {s : Repl}
    (h : (s.viewStart : Int) ≤ min s.viewEnd (s.buffer.length : Int)) :
    calcViewHeight H s = some
      (calcHeight ((s.buffer.take (min s.viewEnd (s.buffer.length : Int)).toNat).drop
        s.viewStart) (promptLen H) s.width,
       { s with viewEnd := min s.viewEnd (s.buffer.length : Int) }) := by
  simp only [calcViewHeight]
  by_cases h1 : s.viewEnd > (s.buffer.length : Int)
  · have hmin : min s.viewEnd (s.buffer.length : Int) = (s.buffer.length : Int) :=
      by omega
    rw [hmin, if_pos h1, if_neg (by simp; omega)]
  · have hmin : min s.viewEnd (s.buffer.length : Int) = s.viewEnd := by omega
    rw [hmin, if_neg h1, if_neg (by omega)]

theorem innerHeight_set_viewEnd (s : Repl) (v : Int) :
    innerHeight { s with viewEnd := v } = innerHeight s := rfl

theorem viewOverflow_some {H : Handler} {s : Repl}
    (h : (s.viewStart : Int) ≤ min s.viewEnd (s.buffer.length : Int)) :
    viewOverflow H s = some
      (decide ((calcHeight ((s.buffer.take
          (min s.viewEnd (s.buffer.length : Int)).toNat).drop s.viewStart)
          (promptLen H) s.width : Int) > innerHeight s),
       { s with viewEnd := min s.viewEnd (s.buffer.length : Int) }) := by
  unfold viewOverflow
  rw [calcViewHeight_some h]
  rfl

theorem shrinkEnd_some {H : Handler} :
    ∀ (f : Nat) (s : Repl), 1 ≤ innerHeight s →
      (s.viewStart : Int) ≤ min s.viewEnd (s.buffer.length : Int) →
      (min s.viewEnd (s.buffer.length : Int) - (s.viewStart : Int)).toNat < f →
      ∃ s', shrinkEnd H f s = some s' := by
  intro f
  induction f with
  | zero => intro s _ _ hf; omega
  | succ f ih =>
    intro s hinner hok hf
    rw [shrinkEnd, viewOverflow_some hok]
    set ve := min s.viewEnd (s.buffer.length : Int) with hve
    set n := calcHeight ((s.buffer.take ve.toNat).drop s.viewStart)
      (promptLen H) s.width with hn
    by_cases hb : (n : Int) > innerHeight s
    · simp only [hb, decide_eq_true_eq, if_pos, decide_True]
      have hgt : (s.viewStart : Int) < ve := by
        rcases lt_or_eq_of_le hok with h | h
        · exact h
        · exfalso
          have hnil : (s.buffer.take ve.toNat).drop s.viewStart = [] := by
            apply List.drop_eq_nil_of_le
            have := List.length_take_le ve.toNat s.buffer
            omega
          rw [hnil] at hn
          rw [calcHeight_nil] at hn
          omega
      have := ih { s with viewEnd := ve - 1 } (by simpa using hinner)
        (by dsimp only; omega) (by dsimp only; omega)
      simpa using this
    · simp only [hb, decide_eq_true_eq, if_neg, decide_False, Bool.false_eq_true,
        if_false]
      exact ⟨_, rfl⟩

theorem shrinkStart_some {H : Handler} :
    ∀ (f : Nat) (s : Repl), 1 ≤ innerHeight s →
      (s.viewStart : Int) ≤ min s.viewEnd (s.buffer.length : Int) →
      (min s.viewEnd (s.buffer.length : Int) - (s.viewStart : Int)).toNat < f →
      ∃ s', shrinkStart H f s = some s' := by
  intro f
  induction f with
  | zero => intro s _ _ hf; omega
  | succ f ih =>
    intro s hinner hok hf
    rw [shrinkStart, viewOverflow_some hok]
    set ve := min s.viewEnd (s.buffer.length : Int) with hve
    set n := calcHeight ((s.buffer.take ve.toNat).drop s.viewStart)
      (promptLen H) s.width with hn
    by_cases hb : (n : Int) > innerHeight s
    · simp only [hb, decide_eq_true_eq, if_pos, decide_True]
      have hgt : (s.viewStart : Int) < ve := by
        rcases lt_or_eq_of_le hok with h | h
        · exact h
        · exfalso
          have hnil : (s.buffer.take ve.toNat).drop s.viewStart = [] := by
            apply List.drop_eq_nil_of_le
            have := List.length_take_le ve.toNat s.buffer
            omega
          rw [hnil] at hn
          rw [calcHeight_nil] at hn
          omega
      have := ih { s with viewStart := s.viewStart + 1, viewEnd := ve }
        (by simpa using hinner) (by dsimp only; push_cast; omega)
        (by dsimp only; push_cast; omega)
      simpa using this
    · simp only [hb, decide_eq_true_eq, if_neg, decide_False, Bool.false_eq_true,
        if_false]
      exact ⟨_, rfl⟩

theorem growEnd_some {H : Handler} :
    ∀ (f : Nat) (s : Repl),
      (s.viewStart : Int) ≤ min s.viewEnd (s.buffer.length : Int) →
      ((s.buffer.length : Int) - min s.viewEnd (s.buffer.length : Int)).toNat < f →
      ∃ s', growEnd H f s = some s' ∧ s'.viewStart = s.viewStart ∧
        s'.buffer = s.buffer ∧ s'.width = s.width ∧ s'.height = s.height ∧
        (s'.viewStart : Int) ≤ min s'.viewEnd (s'.buffer.length : Int) := by
  intro f
  induction f with
  | zero => intro s _ hf; omega
  | succ f ih =>
    intro s hok hf
    rw [growEnd, viewOverflow_some hok]
    set ve := min s.viewEnd (s.buffer.length : Int) with hve
    set n := calcHeight ((s.buffer.take ve.toNat).drop s.viewStart)
      (promptLen H) s.width with hn
    dsimp only
    by_cases hb : (n : Int) > innerHeight s
    · rw [if_neg (by simp [hb])]
      refine ⟨_, rfl, rfl, rfl, rfl, rfl, ?_⟩
      dsimp only
      omega
    · by_cases hlt : ve < (s.buffer.length : Int)
      · rw [if_pos (by simp [hb]; exact hlt)]
        have := ih { s with viewEnd := ve + 1 }
          (by dsimp only; omega) (by dsimp only; omega)
        simpa using this
      · rw [if_neg (by simp [hb]; omega)]
        refine ⟨_, rfl, rfl, rfl, rfl, rfl, ?_⟩
        dsimp only
        omega

theorem innerHeight_congr {s t : Repl} (hw : t.width = s.width)
    (hh : t.height = s.height) : innerHeight t = innerHeight s := by
  unfold innerHeight statusVisible
  rw [hw, hh]

theorem adjustBufferView_some {H : Handler} {s : Repl}
    (hinner : 1 ≤ innerHeight s) (hpos : s.bufferPos ≤ s.buffer.length) :
    ∃ s', adjustBufferView H s = some s' := by
  unfold adjustBufferView
  by_cases h1 : s.bufferPos < s.viewStart
  · rw [if_pos h1]
    refine shrinkEnd_some _ _ (by simpa using hinner) ?_ ?_
    · show (s.bufferPos : Int) ≤ min (s.buffer.length : Int) (s.buffer.length : Int)
      omega
    · show (min (s.buffer.length : Int) (s.buffer.length : Int) -
        (s.bufferPos : Int)).toNat < s.buffer.length +
          ((s.buffer.length : Int)).toNat + 8
      omega
  · rw [if_neg h1]
    by_cases h2 : (s.bufferPos : Int) > s.viewEnd
    · rw [if_pos h2]
      refine shrinkStart_some _ _ (by simpa using hinner) ?_ ?_
      · show (s.viewStart : Int) ≤ min (s.bufferPos : Int) (s.buffer.length : Int)
        omega
      · show (min (s.bufferPos : Int) (s.buffer.length : Int) -
          (s.viewStart : Int)).toNat < s.buffer.length +
            ((s.bufferPos : Int)).toNat + 8
        omega
    · rw [if_neg h2]
      have hok : (s.viewStart : Int) ≤ min s.viewEnd (s.buffer.length : Int) := by
        omega
      rw [viewOverflow_some hok]
      set ve := min s.viewEnd (s.buffer.length : Int) with hve
      set n := calcHeight ((s.buffer.take ve.toNat).drop s.viewStart)
        (promptLen H) s.width with hn
      dsimp only
      by_cases hb : (n : Int) > innerHeight s
      · rw [if_pos (by simpa using hb)]
        refine shrinkEnd_some _ _ (by simpa using hinner) ?_ ?_
        · show (s.viewStart : Int) ≤ min (s.buffer.length : Int) (s.buffer.length : Int)
          omega
        · show (min (s.buffer.length : Int) (s.buffer.length : Int) -
            (s.viewStart : Int)).toNat < s.buffer.length +
              ((s.buffer.length : Int)).toNat + 8
          omega
      · rw [if_neg (by simpa using hb)]
        obtain ⟨s2, hg, hvs, hbuf, hw, hh, hok2⟩ := @growEnd_some H
          (viewFuel { s with viewEnd := ve }) { s with viewEnd := ve }
          (by show (s.viewStart : Int) ≤ min ve (s.buffer.length : Int); omega)
          (by show ((s.buffer.length : Int) -
              min ve (s.buffer.length : Int)).toNat <
              s.buffer.length + ve.toNat + 8
              omega)
        rw [hg]
        refine shrinkEnd_some _ _ ?_ hok2 ?_
        · rw [innerHeight_congr (by simpa using hw) (by simpa using hh)]
          exact hinner
        · show (min s2.viewEnd (s2.buffer.length : Int) -
            (s2.viewStart : Int)).toNat < s2.buffer.length + s2.viewEnd.toNat + 8
          omega

theorem overflow_true {H : Handler} {s : Repl}
    (h : (calcHeight s.buffer (promptLen H) s.width : Int) > innerHeight s) :
    overflow H s = (true, s) := by
  unfold overflow
  rw [if_pos h]

theorem overflow_false {H : Handler} {s : Repl}
    (h : ¬((calcHeight s.buffer (promptLen H) s.width : Int) > innerHeight s)) :
    overflow H s = (false, { s with viewStart := 0, viewEnd := -1 }) := by
  unfold overflow
  rw [if_neg h]

theorem addFromEmpty_some {H : Handler} {t : Repl} {bs : List Nat} (fuel : Nat)
    (hp : t.bufferPos = 0) (hb : t.buffer = [])
    (hh : (calcHeight bs (promptLen H) t.width : Int) ≤ innerHeight t) :
    ∃ u, addBytesToBuffer H (fuel + 1) t bs = some u := by
  rw [addBytesToBuffer]
  rw [if_pos (by rw [hp, hb]; rfl)]
  dsimp only
  rw [show (overflow H { t with bufferPos := t.bufferPos + bs.length, buffer := t.buffer ++ bs, bufNil := t.bufNil && bs.isEmpty }) = (false, { t with bufferPos := t.bufferPos + bs.length, buffer := t.buffer ++ bs, bufNil := t.bufNil && bs.isEmpty, viewStart := 0, viewEnd := -1 }) from ?_]
  · exact ⟨_, rfl⟩
  · refine overflow_false ?_
    show ¬((calcHeight (t.buffer ++ bs) (promptLen H) t.width : Int) > innerHeight t)
    rw [hb]
    simpa using hh

theorem force_some {H : Handler} {s : Repl} {nb : List Nat} {np : Nat} (fuel : Nat)
    (hinner : 1 ≤ innerHeight s) (hf : s.filter = none) (hnp : np ≤ nb.length) :
    ∃ s', force H (fuel + 2) s nb np = some s' := by
  show ∃ s', force H ((fuel + 1) + 1) s nb np = some s'
  rw [force]
  by_cases hov : (calcHeight nb (promptLen H) s.width : Int) > innerHeight s
  · rw [if_pos hov]
    dsimp only
    have hw2 : ({ clearScreenState s with buffer := nb, bufNil := false, bufferPos := np, viewStart := s.viewStart, viewEnd := s.viewEnd } : Repl).width = s.width := by
      simp [clearScreenState, resetBuffer, updatePromptRow]
    have hh2 : ({ clearScreenState s with buffer := nb, bufNil := false, bufferPos := np, viewStart := s.viewStart, viewEnd := s.viewEnd } : Repl).height = s.height := by
      simp [clearScreenState, resetBuffer, updatePromptRow]
    obtain ⟨s3, ha⟩ := @adjustBufferView_some H
      { clearScreenState s with buffer := nb, bufNil := false, bufferPos := np, viewStart := s.viewStart, viewEnd := s.viewEnd }
      (by rw [innerHeight_congr hw2 hh2]; exact hinner) (by simpa using hnp)
    rw [ha]
    have hfil3 : s3.filter = none := by
      have h1 := (core_fields (adjustBufferView_core ha)).2.2.2.2.2.2.1
      have h2 : ({ clearScreenState s with buffer := nb, bufNil := false, bufferPos := np, viewStart := s.viewStart, viewEnd := s.viewEnd } : Repl).filter = none := by
        simp [clearScreenState, resetBuffer, updatePromptRow, hf]
      rw [h1, h2]
    obtain ⟨s4, hw4, _⟩ := @writeStatus_total H _ hfil3
    exact ⟨s4, hw4⟩
  · rw [if_neg hov]
    dsimp only
    obtain ⟨u, hu⟩ := @addFromEmpty_some H (clearBuffer s) nb
      fuel (clearBuffer_fields s).2.1 (clearBuffer_fields s).1
      (by
        have hwc : (clearBuffer s).width = s.width := (clearBuffer_fields s).2.2.2.2.2.2.2.2.1
        have hhc : (clearBuffer s).height = s.height := (clearBuffer_fields s).2.2.2.2.2.2.2.2.2.1
        rw [hwc, innerHeight_congr hwc hhc]
        omega)
    rw [hu]
    have hfil2 : u.filter = (clearBuffer s).filter := (addBytes_spec hu).1.2.2.2.1
    obtain ⟨s4, hw4, _⟩ := @writeStatus_total H
      { u with bufferPos := if u.buffer.length ≤ np then u.buffer.length else np }
      (by
        show u.filter = none
        rw [hfil2, (clearBuffer_fields s).2.2.2.2.2.2.2.1, hf])
    exact ⟨s4, hw4⟩

theorem addBytes_some {H : Handler} {s : Repl} {bs : List Nat} (fuel : Nat)
    (hinner : 1 ≤ innerHeight s) (hf : s.filter = none)
    (hpos : s.bufferPos ≤ s.buffer.length) :
    ∃ s', addBytesToBuffer H (fuel + 3) s bs = some s' := by
  show ∃ s', addBytesToBuffer H ((fuel + 2) + 1) s bs = some s'
  rw [addBytesToBuffer]
  by_cases hp : s.bufferPos = s.buffer.length
  · rw [if_pos hp]
    dsimp only
    by_cases hov : (calcHeight (s.buffer ++ bs) (promptLen H) s.width : Int) >
        innerHeight s
    · rw [show (overflow H { s with bufferPos := s.bufferPos + bs.length, buffer := s.buffer ++ bs, bufNil := s.bufNil && bs.isEmpty }) = (true, { s with bufferPos := s.bufferPos + bs.length, buffer := s.buffer ++ bs, bufNil := s.bufNil && bs.isEmpty }) from overflow_true (by simpa using hov)]
      dsimp only
      rw [if_neg (by simp)]
      have h4 : s.bufferPos + bs.length - bs.length = s.bufferPos := by omega
      rw [h4, hp, List.take_left]
      refine force_some fuel (by simpa using hinner) (by simpa using hf) ?_
      simp
    · rw [show (overflow H { s with bufferPos := s.bufferPos + bs.length, buffer := s.buffer ++ bs, bufNil := s.bufNil && bs.isEmpty }) = (false, { s with bufferPos := s.bufferPos + bs.length, buffer := s.buffer ++ bs, bufNil := s.bufNil && bs.isEmpty, viewStart := 0, viewEnd := -1 }) from overflow_false (by simpa using hov)]
      exact ⟨_, rfl⟩
  · rw [if_neg hp]
    dsimp only
    refine force_some fuel (by simpa using hinner) (by simpa using hf) ?_
    simp
    omega

/-! ### C1: the kill/yank aliasing divergence

The intermediate states of typing `"ab cd"` (width 80), pressing Left
once, then Ctrl-W and yank. -/

def sF1 : Repl :=
  { bufNil := false, backup := none, filter := none, viewStart := 0, width := 80, height := 24, evalCalls := [], printLog := [], history := [], historyIdx := -1, buffer := [97], prevDel := [], bufferPos := 1, viewEnd := 1, promptRow := -1 }

def sF2 : Repl :=
  { bufNil := false, backup := none, filter := none, viewStart := 0, width := 80, height := 24, evalCalls := [], printLog := [], history := [], historyIdx := -1, buffer := [97, 98], prevDel := [], bufferPos := 2, viewEnd := 2, promptRow := -1 }

def sF3 : Repl :=
  { bufNil := false, backup := none, filter := none, viewStart := 0, width := 80, height := 24, evalCalls := [], printLog := [], history := [], historyIdx := -1, buffer := [97, 98, 32], prevDel := [], bufferPos := 3, viewEnd := 3, promptRow := -1 }

def sF4 : Repl :=
  { bufNil := false, backup := none, filter := none, viewStart := 0, width := 80, height := 24, evalCalls := [], printLog := [], history := [], historyIdx := -1, buffer := [97, 98, 32, 99], prevDel := [], bufferPos := 4, viewEnd := 4, promptRow := -1 }

def sF5 : Repl :=
  { bufNil := false, backup := none, filter := none, viewStart := 0, width := 80, height := 24, evalCalls := [], printLog := [], history := [], historyIdx := -1, buffer := [97, 98, 32, 99, 100], prevDel := [], bufferPos := 5, viewEnd := 5, promptRow := -1 }

def sF6 : Repl :=
  { bufNil := false, backup := none, filter := none, viewStart := 0, width := 80, height := 24, evalCalls := [], printLog := [], history := [], historyIdx := -1, buffer := [97, 98, 32, 99, 100], prevDel := [], bufferPos := 4, viewEnd := -1, promptRow := -1 }

def sF7 : Repl :=
  { bufNil := false, backup := none, filter := none, viewStart := 0, width := 80, height := 24, evalCalls := [], printLog := [], history := [], historyIdx := -1, buffer := [97, 98, 32, 100], prevDel := [100], bufferPos := 3, viewEnd := 4, promptRow := 0 }

def sF8 : Repl :=
  { bufNil := false, backup := none, filter := none, viewStart := 0, width := 80, height := 24, evalCalls := [], printLog := [], history := [], historyIdx := -1, buffer := [97, 98, 32, 100, 100], prevDel := [100], bufferPos := 4, viewEnd := 5, promptRow := 0 }

/-- C1: Ctrl-W at an interior cursor diverges from the claim.  Typing
`"ab cd"`, moving the cursor left once (to 4) and pressing Ctrl-W
(byte 23) removes `buffer[3:4]` — the byte `"c"` — and moves the cursor
to the boundary 3 as claimed; but `prevDel` receives `"d"`, not the
removed `"c"`, because Go's in-place `append` moves the tail over the
killed region of the shared backing array before `prevDel` is read.
The following yank (byte 25) therefore re-inserts `"d"`, producing
`"ab dd"` instead of restoring `"ab cd"`. -/
theorem c1_kill_yank_aliasing :
    (replRun H0 (newRepl 80 24)
        [[97], [98], [32], [99], [100], [27, 91, 68], [23]]).map
      (fun s => (s.buffer, s.bufferPos, s.prevDel)) =
      some ([97, 98, 32, 100], 3, [100]) ∧
    (([97, 98, 32, 99, 100] : List Nat).take 4).drop 3 = [99] ∧
    ([100] : List Nat) ≠ [99] ∧
    (replRun H0 (newRepl 80 24)
        [[97], [98], [32], [99], [100], [27, 91, 68], [23], [25]]).map
      (fun s => (s.buffer, s.bufferPos)) = some ([97, 98, 32, 100, 100], 4) ∧
    ([97, 98, 32, 100, 100] : List Nat) ≠ [97, 98, 32, 99, 100] := by
  have h1 : dispatch H0 (newRepl 80 24) [97] = some sF1 := by rfl
  have h2 : dispatch H0 sF1 [98] = some sF2 := by rfl
  have h3 : dispatch H0 sF2 [32] = some sF3 := by rfl
  have h4 : dispatch H0 sF3 [99] = some sF4 := by rfl
  have h5 : dispatch H0 sF4 [100] = some sF5 := by rfl
  have h6 : dispatch H0 sF5 [27, 91, 68] = some sF6 := by rfl
  have h7 : dispatch H0 sF6 [23] = some sF7 := by rfl
  have h8 : dispatch H0 sF7 [25] = some sF8 := by rfl
  refine ⟨?_, by decide, by decide, ?_, by decide⟩ <;>
    simp only [replRun, h1, h2, h3, h4, h5, h6, h7, h8] <;> rfl


/-! ### Reachable-state invariants

`goodBuf` is the spec's buffer well-formedness (newline or printable);
`GoodTab` restricts the handler's completion callback to such bytes.
`ReplInv` bundles the dispatch-preserved facts: `historyIdx = -1` iff no
backup, `historyIdx` in range, a nil buffer only before any history
exists, no two adjacent equal history entries, and (for well-behaved
handlers) well-formedness of the buffer, the kill ring and the stored
entries. -/

def goodBuf (l : List Nat) : Prop := ∀ c ∈ l, c = 10 ∨ 32 ≤ c

def GoodTab (H : Handler) : Prop := ∀ bs c, c ∈ H.tab bs → c = 10 ∨ 32 ≤ c

def ReplInv (H : Handler) (s : Repl) : Prop :=
  (s.historyIdx = -1 ↔ s.backup = none) ∧
  (-1 ≤ s.historyIdx ∧ s.historyIdx < (s.history.length : Int)) ∧
  (s.bufNil = true → s.history = []) ∧
  List.Chain' (fun a b => a ≠ b) s.history ∧
  (GoodTab H →
    goodBuf s.buffer ∧ goodBuf s.prevDel ∧ (∀ e ∈ s.history, goodBuf e) ∧
    (∀ bk, s.backup = some bk → goodBuf bk))

theorem goodBuf_nil : goodBuf [] := by
  intro c hc
  cases hc

theorem goodBuf_subset {l l' : List Nat} (hs : l' ⊆ l) (h : goodBuf l) :
    goodBuf l' := fun c hc => h c (hs hc)

theorem goodBuf_append {l l' : List Nat} (h : goodBuf l) (h' : goodBuf l') :
    goodBuf (l ++ l') := by
  intro c hc
  rcases List.mem_append.1 hc with hx | hx
  · exact h c hx
  · exact h' c hx

theorem goodBuf_take {l : List Nat} (h : goodBuf l) (n : Nat) :
    goodBuf (l.take n) := goodBuf_subset (List.take_subset n l) h

theorem goodBuf_drop {l : List Nat} (h : goodBuf l) (n : Nat) :
    goodBuf (l.drop n) := goodBuf_subset (List.drop_subset n l) h

theorem goodBuf_getD {l : List (List Nat)} (h : ∀ e ∈ l, goodBuf e) (n : Nat) :
    goodBuf (l.getD n []) := by
  by_cases hn : n < l.length
  · rw [List.getD_eq_getElem?_getD, List.getElem?_eq_getElem hn]
    simpa using h _ (List.getElem_mem hn)
  · rw [List.getD_eq_default _ _ (le_of_not_lt hn)]
    exact goodBuf_nil

theorem inv_mk {H : Handler} {s s' : Repl} (inv : ReplInv H s)
    (h1 : s'.historyIdx = s.historyIdx) (h2 : s'.backup = s.backup)
    (h3 : s'.history = s.history)
    (h4 : s'.bufNil = true → s.bufNil = true)
    (h5 : GoodTab H → goodBuf s'.buffer)
    (h6 : GoodTab H → goodBuf s'.prevDel) : ReplInv H s' := by
  obtain ⟨i1, i2, i3, i4, i5⟩ := inv
  refine ⟨by rw [h1, h2]; exact i1, by rw [h1, h3]; exact i2,
    fun hn => by rw [h3]; exact i3 (h4 hn), by rw [h3]; exact i4, fun hg => ?_⟩
  obtain ⟨-, -, g3, g4⟩ := i5 hg
  exact ⟨h5 hg, h6 hg, by rw [h3]; exact g3, fun bk hbk => g4 bk (h2 ▸ hbk)⟩

theorem inv_congr_core {H : Handler} {s s' : Repl} (h : core s' = core s)
    (inv : ReplInv H s) : ReplInv H s' := by
  obtain ⟨-, -, c3, c4, -, c6, -, -, -, -, -, -⟩ := core_fields h
  exact inv_mk inv (core_fields h).2.1 (core_fields h).2.2.2.2.1 (core_fields h).1
    (fun hn => by rw [← c4]; exact hn)
    (fun hg => by rw [c3]; exact ((inv.2.2.2.2) hg).1)
    (fun hg => by rw [c6]; exact ((inv.2.2.2.2) hg).2.1)

theorem writeStatus_inv {H : Handler} {s s' : Repl}
    (h : writeStatus H s = some s') (inv : ReplInv H s) : ReplInv H s' :=
  inv_congr_core (writeStatus_core h) inv

theorem force_inv {H : Handler} {fuel : Nat} {s : Repl} {nb : List Nat}
    {np : Nat} {s' : Repl} (h : force H fuel s nb np = some s')
    (inv : ReplInv H s) (hnb : GoodTab H → goodBuf nb) : ReplInv H s' := by
  obtain ⟨⟨f1, f2, f3, f4, f5, f6, f7, f8, f9⟩, hnil, hbuf, -⟩ := force_spec h
  exact inv_mk inv f2 f3 f1 (fun hn => absurd (hnil ▸ hn) (by simp))
    (fun hg => hbuf ▸ hnb hg) (fun hg => f5 ▸ (inv.2.2.2.2 hg).2.1)

theorem addBytes_inv {H : Handler} {fuel : Nat} {s : Repl} {bs : List Nat}
    {s' : Repl} (h : addBytesToBuffer H fuel s bs = some s')
    (inv : ReplInv H s) (hbs : GoodTab H → goodBuf bs) : ReplInv H s' := by
  obtain ⟨⟨f1, f2, f3, f4, f5, f6, f7, f8, f9⟩, hnil, hbuf, -⟩ := addBytes_spec h
  refine inv_mk inv f2 f3 f1 (fun hn => (hnil hn).1) (fun hg => ?_)
    (fun hg => f5 ▸ (inv.2.2.2.2 hg).2.1)
  rw [hbuf]
  have hb := (inv.2.2.2.2 hg).1
  exact goodBuf_append (goodBuf_append (goodBuf_take hb _) (hbs hg)) (goodBuf_drop hb _)

theorem redraw_inv {H : Handler} {s s' : Repl} (h : redraw H s = some s')
    (inv : ReplInv H s) : ReplInv H s' :=
  force_inv h inv (fun hg => (inv.2.2.2.2 hg).1)

theorem syncCursorOverflow_inv {H : Handler} {s s' : Repl}
    (h : syncCursorOverflow H s = some s') (inv : ReplInv H s) : ReplInv H s' := by
  have hos : ReplInv H (overflow H s).2 := inv_congr_core (overflow_snd_core H s) inv
  have hbo : (overflow H s).2.buffer = s.buffer :=
    (core_fields (overflow_snd_core H s)).2.2.1
  simp only [syncCursorOverflow] at h
  split at h
  · exact redraw_inv h hos
  · rw [Option.some.injEq] at h
    exact h ▸ hos

theorem stopSearch_inv {H : Handler} {s s' : Repl}
    (h : stopSearch H s = some s') (inv : ReplInv H s) : ReplInv H s' := by
  unfold stopSearch at h
  exact writeStatus_inv h inv

theorem startReverseSearch_inv {H : Handler} {s s' : Repl}
    (h : startReverseSearch H s = some s') (inv : ReplInv H s) : ReplInv H s' := by
  unfold startReverseSearch at h
  exact writeStatus_inv h inv

theorem moveToBufferStart_inv {H : Handler} {s s' : Repl}
    (h : moveToBufferStart H s = some s') (inv : ReplInv H s) : ReplInv H s' := by
  simp only [moveToBufferStart] at h
  split at h
  · exact stopSearch_inv h inv
  · exact syncCursorOverflow_inv h inv

theorem moveToBufferEnd_inv {H : Handler} {s s' : Repl}
    (h : moveToBufferEnd H s = some s') (inv : ReplInv H s) : ReplInv H s' := by
  simp only [moveToBufferEnd] at h
  split at h
  · exact stopSearch_inv h inv
  · exact syncCursorOverflow_inv h inv

theorem moveLeftOneChar_inv {H : Handler} {s s' : Repl}
    (h : moveLeftOneChar H s = some s') (inv : ReplInv H s) : ReplInv H s' := by
  simp only [moveLeftOneChar] at h
  split at h
  · exact stopSearch_inv h inv
  · split at h
    · split at h
      · exact redraw_inv h (inv_congr_core (overflow_snd_core H _) inv)
      · rw [Option.some.injEq] at h
        exact h ▸ inv_congr_core (overflow_snd_core H _) inv
    · rw [Option.some.injEq] at h
      exact h ▸ inv

theorem moveRightOneChar_inv {H : Handler} {s s' : Repl}
    (h : moveRightOneChar H s = some s') (inv : ReplInv H s) : ReplInv H s' := by
  simp only [moveRightOneChar] at h
  split at h
  · exact stopSearch_inv h inv
  · split at h
    · split at h
      · exact redraw_inv h (inv_congr_core (overflow_snd_core H _) inv)
      · rw [Option.some.injEq] at h
        exact h ▸ inv_congr_core (overflow_snd_core H _) inv
    · rw [Option.some.injEq] at h
      exact h ▸ inv

theorem moveLeftOnePhrase_inv {H : Handler} {s s' : Repl}
    (h : moveLeftOnePhrase H s = some s') (inv : ReplInv H s) : ReplInv H s' := by
  simp only [moveLeftOnePhrase] at h
  split at h
  · split at h
    · exact redraw_inv h (inv_congr_core (overflow_snd_core H _) inv)
    · rw [Option.some.injEq] at h
      exact h ▸ inv_congr_core (overflow_snd_core H _) inv
  · rw [Option.some.injEq] at h
    exact h ▸ inv

theorem moveRightOnePhrase_inv {H : Handler} {s s' : Repl}
    (h : moveRightOnePhrase H s = some s') (inv : ReplInv H s) : ReplInv H s' := by
  simp only [moveRightOnePhrase] at h
  split at h
  · split at h
    · exact redraw_inv h (inv_congr_core (overflow_snd_core H _) inv)
    · rw [Option.some.injEq] at h
      exact h ▸ inv_congr_core (overflow_snd_core H _) inv
  · rw [Option.some.injEq] at h
    exact h ▸ inv

theorem backspace_inv {H : Handler} {s s' : Repl}
    (h : backspace H s = some s') (inv : ReplInv H s) : ReplInv H s' := by
  simp only [backspace] at h
  split at h
  · split at h
    · split at h
      · split at h
        · rw [Option.some.injEq] at h
          subst h
          exact inv_mk (inv_congr_core (overflow_snd_core H s) inv) rfl rfl rfl
            (fun hn => by simp at hn)
            (fun hg => goodBuf_append (goodBuf_take ((inv.2.2.2.2 hg).1) _)
              (goodBuf_drop ((inv.2.2.2.2 hg).1) _))
            (fun hg => ((inv_congr_core (overflow_snd_core H s) inv).2.2.2.2 hg).2.1)
        · exact force_inv h (inv_congr_core (overflow_snd_core H s) inv)
            (fun hg => goodBuf_append (goodBuf_take ((inv.2.2.2.2 hg).1) _)
              (goodBuf_drop ((inv.2.2.2.2 hg).1) _))
      · exact force_inv h inv
          (fun hg => goodBuf_append (goodBuf_take ((inv.2.2.2.2 hg).1) _)
            (goodBuf_drop ((inv.2.2.2.2 hg).1) _))
    · rw [Option.some.injEq] at h
      exact h ▸ inv
  · rw [Option.some.injEq] at h
    exact h ▸ inv

theorem deleteChar_inv {H : Handler} {s s' : Repl}
    (h : deleteChar H s = some s') (inv : ReplInv H s) : ReplInv H s' := by
  simp only [deleteChar] at h
  split at h
  · exact stopSearch_inv h inv
  · split at h
    · refine force_inv h inv (fun hg =>
        goodBuf_append (goodBuf_take ((inv.2.2.2.2 hg).1) _) ?_)
      split
      · exact goodBuf_drop ((inv.2.2.2.2 hg).1) _
      · exact goodBuf_nil
    · rw [Option.some.injEq] at h
      exact h ▸ inv

theorem clearToEnd_inv {H : Handler} {s s' : Repl}
    (h : clearToEnd H s = some s') (inv : ReplInv H s) : ReplInv H s' := by
  simp only [clearToEnd] at h
  split at h
  · exact force_inv h
      (inv_mk inv rfl rfl rfl (fun hn => hn)
        (fun hg => (inv.2.2.2.2 hg).1)
        (fun hg => goodBuf_drop ((inv.2.2.2.2 hg).1) _))
      (fun hg => goodBuf_take ((inv.2.2.2.2 hg).1) _)
  · rw [Option.some.injEq] at h
    exact h ▸ inv

theorem clearToStart_inv {H : Handler} {s s' : Repl}
    (h : clearToStart H s = some s') (inv : ReplInv H s) : ReplInv H s' := by
  simp only [clearToStart] at h
  split at h
  · exact force_inv h
      (inv_mk inv rfl rfl rfl (fun hn => hn)
        (fun hg => (inv.2.2.2.2 hg).1)
        (fun hg => goodBuf_take ((inv.2.2.2.2 hg).1) _))
      (fun hg => goodBuf_drop ((inv.2.2.2.2 hg).1) _)
  · rw [Option.some.injEq] at h
    exact h ▸ inv

theorem clearOnePhraseLeft_inv {H : Handler} {s s' : Repl}
    (h : clearOnePhraseLeft H s = some s') (inv : ReplInv H s) : ReplInv H s' := by
  have hgb : GoodTab H → goodBuf s.buffer := fun hg => (inv.2.2.2.2 hg).1
  have hmg : GoodTab H → goodBuf (s.buffer.take (prevPhrasePos s).1 ++
      s.buffer.drop s.bufferPos ++
      s.buffer.drop ((prevPhrasePos s).1 + (s.buffer.length - s.bufferPos))) :=
    fun hg => goodBuf_append (goodBuf_append (goodBuf_take (hgb hg) _)
      (goodBuf_drop (hgb hg) _)) (goodBuf_drop (hgb hg) _)
  have inv1 : ReplInv H { s with
      buffer := s.buffer.take (prevPhrasePos s).1 ++ s.buffer.drop s.bufferPos ++
        s.buffer.drop ((prevPhrasePos s).1 + (s.buffer.length - s.bufferPos)),
      prevDel := (((s.buffer.take (prevPhrasePos s).1 ++ s.buffer.drop s.bufferPos ++
        s.buffer.drop ((prevPhrasePos s).1 + (s.buffer.length - s.bufferPos))).take
          s.bufferPos).drop (prevPhrasePos s).1) } :=
    inv_mk inv rfl rfl rfl (fun hn => hn) hmg
      (fun hg => goodBuf_drop (goodBuf_take (hmg hg) _) _)
  have hnbg : GoodTab H →
      goodBuf (s.buffer.take (prevPhrasePos s).1 ++ s.buffer.drop s.bufferPos) :=
    fun hg => goodBuf_append (goodBuf_take (hgb hg) _)
      (goodBuf_drop (hgb hg) _)
  simp only [clearOnePhraseLeft] at h
  split at h
  · split at h
    · split at h
      · rw [Option.some.injEq] at h
        subst h
        exact inv_mk (inv_congr_core (overflow_snd_core H _) inv1) rfl rfl rfl
          (fun hn => by simp at hn) hnbg
          (fun hg => ((inv_congr_core (overflow_snd_core H _) inv1).2.2.2.2 hg).2.1)
      · exact force_inv h (inv_congr_core (overflow_snd_core H _) inv1) hnbg
    · exact force_inv h inv1 hnbg
  · rw [Option.some.injEq] at h
    exact h ▸ inv

theorem clearOnePhraseRight_inv {H : Handler} {s s' : Repl}
    (h : clearOnePhraseRight H s = some s') (inv : ReplInv H s) : ReplInv H s' := by
  simp only [clearOnePhraseRight] at h
  split at h
  · exact force_inv h
      (inv_mk inv rfl rfl rfl (fun hn => hn)
        (fun hg => (inv.2.2.2.2 hg).1)
        (fun hg => goodBuf_drop (goodBuf_take ((inv.2.2.2.2 hg).1) _) _))
      (fun hg => goodBuf_append (goodBuf_take ((inv.2.2.2.2 hg).1) _)
        (goodBuf_drop ((inv.2.2.2.2 hg).1) _))
  · rw [Option.some.injEq] at h
    exact h ▸ inv

theorem insertPrevDel_inv {H : Handler} {s s' : Repl}
    (h : insertPrevDel H s = some s') (inv : ReplInv H s) : ReplInv H s' := by
  unfold insertPrevDel at h
  exact addBytes_inv h inv (fun hg => (inv.2.2.2.2 hg).2.1)

theorem tab_inv {H : Handler} {s s' : Repl}
    (h : tab H s = some s') (inv : ReplInv H s) : ReplInv H s' := by
  simp only [tab] at h
  split at h
  · exact addBytes_inv h inv (fun hg c hc => hg _ c hc)
  · rw [Option.some.injEq] at h
    exact h ▸ inv

theorem redrawScreen_inv {H : Handler} {s s' : Repl}
    (h : redrawScreen H s = some s') (inv : ReplInv H s) : ReplInv H s' := by
  simp only [redrawScreen] at h
  refine force_inv h
    (inv_mk inv rfl rfl rfl (fun hn => by simp [clearScreenState, resetBuffer] at hn)
      (fun _ => goodBuf_nil)
      (fun hg => (inv.2.2.2.2 hg).2.1))
    (fun hg => (inv.2.2.2.2 hg).1)

theorem handleCursorQuery_inv {H : Handler} {s s' : Repl} {x y : Int}
    (h : handleCursorQuery H s x y = some s') (inv : ReplInv H s) : ReplInv H s' := by
  unfold handleCursorQuery at h
  exact writeStatus_inv h inv

theorem parseRowCol_inv {H : Handler} {s s' : Repl} {payload : List Nat}
    (h : parseRowCol H s payload = some s') (inv : ReplInv H s) : ReplInv H s' := by
  simp only [parseRowCol] at h
  split at h
  · rw [Option.some.injEq] at h
    exact h ▸ inv
  · split at h
    · rw [Option.some.injEq] at h
      exact h ▸ inv
    · split at h
      · exact Option.noConfusion h
      · split at h
        · rw [Option.some.injEq] at h
          exact h ▸ inv
        · exact handleCursorQuery_inv h inv

theorem appendToHistory_history (s : Repl) (entry : List Nat) :
    (appendToHistory s entry).history =
      if 0 < s.history.length ∧ s.history.getLastD [] = entry then s.history
      else s.history ++ [entry] := by
  simp only [appendToHistory]
  by_cases h0 : s.history.length = 0
  · rw [if_pos h0, if_neg (fun hc => absurd hc.1 (by omega))]
  · rw [if_neg h0]
    by_cases h1 : s.history.getLastD [] ≠ entry
    · rw [if_pos h1, if_neg (fun hc => h1 hc.2)]
    · push_neg at h1
      rw [if_neg (not_not_intro h1), if_pos ⟨Nat.pos_of_ne_zero h0, h1⟩]

theorem appendToHistory_fields (s : Repl) (entry : List Nat) :
    (appendToHistory s entry).historyIdx = s.historyIdx ∧
    (appendToHistory s entry).backup = s.backup ∧
    (appendToHistory s entry).bufNil = s.bufNil ∧
    (appendToHistory s entry).buffer = s.buffer ∧
    (appendToHistory s entry).prevDel = s.prevDel := by
  simp only [appendToHistory]
  split
  · exact ⟨rfl, rfl, rfl, rfl, rfl⟩
  · split
    · exact ⟨rfl, rfl, rfl, rfl, rfl⟩
    · exact ⟨rfl, rfl, rfl, rfl, rfl⟩

theorem appendToHistory_chain {s : Repl} (entry : List Nat)
    (h : List.Chain' (fun a b => a ≠ b) s.history) :
    List.Chain' (fun a b => a ≠ b) (appendToHistory s entry).history := by
  rw [appendToHistory_history]
  split
  · exact h
  · rename_i hc
    rw [List.chain'_append]
    refine ⟨h, List.chain'_singleton _, fun x hx y hy => ?_⟩
    simp only [List.head?_cons, Option.mem_def, Option.some.injEq] at hy
    subst hy
    rw [Option.mem_def] at hx
    have hne : s.history ≠ [] := by
      intro he
      rw [he] at hx
      simp at hx
    have hx' : s.history.getLastD [] = x := by
      rw [List.getLastD_eq_getLast?, hx]
      rfl
    exact fun hxe => hc ⟨List.length_pos.2 hne, hx' ▸ hxe⟩

theorem appendToHistory_good {s : Repl} {entry : List Nat}
    (hh : ∀ e ∈ s.history, goodBuf e) (he : goodBuf entry) :
    ∀ e ∈ (appendToHistory s entry).history, goodBuf e := by
  rw [appendToHistory_history]
  split
  · exact hh
  · intro e hme
    rcases List.mem_append.1 hme with hx | hx
    · exact hh e hx
    · simp only [List.mem_singleton] at hx
      subst hx
      exact he

theorem evalBuffer_history (H : Handler) (s : Repl) :
    (evalBuffer H s).history = (appendToHistory s s.buffer).history := by
  show (appendToHistory _ s.buffer).history = (appendToHistory s s.buffer).history
  rw [appendToHistory_history, appendToHistory_history]

theorem evalBuffer_prevDel (H : Handler) (s : Repl) :
    (evalBuffer H s).prevDel = s.prevDel := by
  show (appendToHistory _ s.buffer).prevDel = s.prevDel
  exact (appendToHistory_fields _ _).2.2.2.2

theorem evalBuffer_inv {H : Handler} {s : Repl} (inv : ReplInv H s) :
    ReplInv H (evalBuffer H s) := by
  obtain ⟨-, -, -, i4, i5⟩ := inv
  have hidx : (evalBuffer H s).historyIdx = -1 := rfl
  have hbk : (evalBuffer H s).backup = none := rfl
  refine ⟨iff_of_true hidx hbk, ⟨by rw [hidx], ?_⟩, ?_, ?_, fun hg => ?_⟩
  · rw [hidx]
    have := Int.ofNat_nonneg (evalBuffer H s).history.length
    omega
  · intro hn
    exact absurd hn (by exact Bool.noConfusion)
  · rw [evalBuffer_history]
    exact appendToHistory_chain _ i4
  · obtain ⟨g1, g2, g3, -⟩ := i5 hg
    refine ⟨?_, ?_, ?_, fun bk hbk' => absurd (hbk ▸ hbk') (by simp)⟩
    · exact goodBuf_nil
    · rw [evalBuffer_prevDel]
      exact g2
    · rw [evalBuffer_history]
      exact appendToHistory_good g3 g1

theorem useHistoryEntry_inv {H : Handler} {s : Repl} {i : Int} {s' : Repl}
    (h : useHistoryEntry H s i = some s') (inv : ReplInv H s)
    (hi : i = -1 ∨ (0 ≤ i ∧ i < (s.history.length : Int))) : ReplInv H s' := by
  obtain ⟨i1, i2, i3, i4, i5⟩ := inv
  simp only [useHistoryEntry] at h
  split at h
  · -- i = -1: restore the backup
    split at h
    · rename_i bk hbk
      rw [Option.bind_eq_some] at h
      obtain ⟨s2, hf2, hs'⟩ := h
      rw [Option.some.injEq] at hs'
      subst hs'
      obtain ⟨⟨f1, f2, f3, f4, f5, f6, f7, f8, f9⟩, hnil, hbuf, -⟩ := force_spec hf2
      have hidx : s2.historyIdx = -1 := f2
      have hh : s2.history = s.history := f1
      refine ⟨iff_of_true hidx rfl, ⟨by rw [hidx], ?_⟩, ?_, ?_, fun hg => ?_⟩
      · rw [hidx, hh]
        have := Int.ofNat_nonneg s.history.length
        omega
      · intro hn
        exact absurd (hnil ▸ hn) (by simp)
      · rw [hh]
        exact i4
      · obtain ⟨-, g2, g3, g4⟩ := i5 hg
        have hbks : s.backup = some bk := hbk
        refine ⟨?_, ?_, ?_, fun bk' hbk' => absurd hbk' (by simp)⟩
        · rw [show s2.buffer = bk from hbuf]
          exact g4 bk hbks
        · rw [show s2.prevDel = s.prevDel from f5]
          exact g2
        · rw [hh]
          exact g3
    · rw [Option.some.injEq] at h
      subst h
      refine ⟨iff_of_true rfl rfl, ⟨by norm_num, ?_⟩, fun hn => i3 hn, i4, fun hg => ?_⟩
      · have := Int.ofNat_nonneg s.history.length
        show (-1 : Int) < (s.history.length : Int)
        omega
      · obtain ⟨g1, g2, g3, -⟩ := i5 hg
        exact ⟨g1, g2, g3, fun bk hbk' => absurd hbk' (by simp)⟩
  · -- a real index: store the backup and load the entry
    rename_i hne
    rcases hi with rfl | ⟨h0, hlen⟩
    · exact absurd rfl hne
    have hlenpos : 0 < s.history.length := by
      exact_mod_cast lt_of_le_of_lt h0 hlen
    have hnilf : s.bufNil = false := by
      cases hb : s.bufNil
      · rfl
      · rw [i3 hb] at hlenpos
        simp at hlenpos
    obtain ⟨⟨f1, f2, f3, f4, f5, f6, f7, f8, f9⟩, hnil, hbuf, -⟩ := force_spec h
    have hidx : s'.historyIdx = i := f2
    have hh : s'.history = s.history := f1
    have hbk : s'.backup =
        if s.backup = none then some s.buffer else s.backup := by
      rw [show s'.backup =
        (if s.backup = none then (if s.bufNil then none else some s.buffer)
          else s.backup) from f3, hnilf]
      simp
    refine ⟨?_, ⟨by rw [hidx]; omega, by rw [hidx, hh]; exact hlen⟩, ?_, ?_, fun hg => ?_⟩
    · rw [hidx, hbk]
      constructor
      · intro hci
        exact absurd hci hne
      · intro hcb
        split at hcb
        · exact absurd hcb (by simp)
        · rename_i hbn
          exact absurd hcb hbn
    · intro hn
      exact absurd (hnil ▸ hn) (by simp)
    · rw [hh]
      exact i4
    · obtain ⟨g1, g2, g3, g4⟩ := i5 hg
      refine ⟨?_, ?_, ?_, ?_⟩
      · rw [show s'.buffer = s.history.getD i.toNat [] from hbuf]
        exact goodBuf_getD g3 _
      · rw [show s'.prevDel = s.prevDel from f5]
        exact g2
      · rw [hh]
        exact g3
      · intro bk hbk'
        rw [hbk] at hbk'
        split at hbk'
        · rw [Option.some.injEq] at hbk'
          exact hbk' ▸ g1
        · exact g4 bk hbk'

theorem historyForward_inv {H : Handler} {s s' : Repl}
    (h : historyForward H s = some s') (inv : ReplInv H s) : ReplInv H s' := by
  simp only [historyForward] at h
  split at h
  · split at h
    · split at h
      · rename_i i heq
        have hm : i < s.history.length :=
          List.mem_range.1 (List.mem_of_find?_eq_some heq)
        exact useHistoryEntry_inv h inv
          (Or.inr ⟨Int.ofNat_nonneg i, by exact_mod_cast hm⟩)
      · rw [Option.some.injEq] at h
        exact h ▸ inv
    · rw [Option.some.injEq] at h
      exact h ▸ inv
  · split at h
    · split at h
      · rename_i hne hlt
        refine useHistoryEntry_inv h inv (Or.inr ⟨?_, ?_⟩)
        · have := inv.2.1.1
          omega
        · omega
      · exact useHistoryEntry_inv h inv (Or.inl rfl)
    · rw [Option.some.injEq] at h
      exact h ▸ inv

theorem historyBack_inv {H : Handler} {s s' : Repl}
    (h : historyBack H s = some s') (inv : ReplInv H s) : ReplInv H s' := by
  simp only [historyBack] at h
  split at h
  · split at h
    · split at h
      · rename_i i heq
        have hm : i < s.history.length := by
          have := List.mem_of_find?_eq_some heq
          rw [List.mem_reverse] at this
          exact List.mem_range.1 this
        exact useHistoryEntry_inv h inv
          (Or.inr ⟨Int.ofNat_nonneg i, by exact_mod_cast hm⟩)
      · rw [Option.some.injEq] at h
        exact h ▸ inv
    · rw [Option.some.injEq] at h
      exact h ▸ inv
  · split at h
    · split at h
      · rename_i hidx hpos
        refine useHistoryEntry_inv h inv (Or.inr ⟨?_, ?_⟩)
        · omega
        · omega
      · rw [Option.some.injEq] at h
        exact h ▸ inv
    · split at h
      · rename_i hidx hpos
        refine useHistoryEntry_inv h inv (Or.inr ⟨?_, ?_⟩)
        · omega
        · have := inv.2.1.2
          omega
      · rw [Option.some.injEq] at h
        exact h ▸ inv

theorem updateSearchResult_inv {H : Handler} {s s' : Repl}
    (h : updateSearchResult H s = some s') (inv : ReplInv H s) : ReplInv H s' := by
  simp only [updateSearchResult] at h
  split at h
  · rw [Option.some.injEq] at h
    exact h ▸ inv
  · split at h
    · rw [Option.some.injEq] at h
      exact h ▸ inv
    · split at h
      · rename_i i heq
        have hm : i < s.history.length := by
          have := List.mem_of_find?_eq_some heq
          rw [List.mem_reverse] at this
          exact List.mem_range.1 this
        exact useHistoryEntry_inv h inv
          (Or.inr ⟨Int.ofNat_nonneg i, by exact_mod_cast hm⟩)
      · rw [Option.some.injEq] at h
        exact h ▸ inv

theorem backspaceActiveBuffer_inv {H : Handler} {s s' : Repl}
    (h : backspaceActiveBuffer H s = some s') (inv : ReplInv H s) : ReplInv H s' := by
  simp only [backspaceActiveBuffer] at h
  split at h
  · rw [Option.bind_eq_some] at h
    obtain ⟨t, hu, hw⟩ := h
    exact writeStatus_inv hw (updateSearchResult_inv hu inv)
  · exact backspace_inv h inv

theorem clearBuffer_inv {H : Handler} {s : Repl} (inv : ReplInv H s) :
    ReplInv H (clearBuffer s) := by
  obtain ⟨cb, -, cn, ch, ci, ck, cp, -, -, -, -, -⟩ := clearBuffer_fields s
  exact inv_mk inv ci ck ch (fun hn => absurd (cn ▸ hn) (by simp))
    (fun _ => cb ▸ goodBuf_nil) (fun hg => cp ▸ (inv.2.2.2.2 hg).2.1)

theorem dispatch1_printable_inv {H : Handler} {s s' : Repl} {c : Nat}
    (hc : c = 10 ∨ 32 ≤ c)
    (h : (addBytesToBuffer H 8 s [c]).bind (fun t => writeStatus H t) = some s')
    (inv : ReplInv H s) : ReplInv H s' := by
  rw [Option.bind_eq_some] at h
  obtain ⟨t, h1, h2⟩ := h
  refine writeStatus_inv h2 (addBytes_inv h1 inv (fun _ x hx => ?_))
  simp only [List.mem_singleton] at hx
  subst hx
  exact hc

theorem searchAppend_inv {H : Handler} {s s' : Repl} {flt : List Nat}
    (h : (updateSearchResult H { s with filter := some flt }).bind
      (fun t => writeStatus H t) = some s')
    (inv : ReplInv H s) : ReplInv H s' := by
  rw [Option.bind_eq_some] at h
  obtain ⟨t, h1, h2⟩ := h
  exact writeStatus_inv h2 (updateSearchResult_inv h1 inv)

theorem dispatch1_inv {H : Handler} {s s' : Repl} {c : Nat}
    (h : dispatch1 H s c = some s') (inv : ReplInv H s) : ReplInv H s' := by
  delta dispatch1 at h
  by_cases h0 : c = 0
  · rw [if_pos h0] at h
    rw [Option.some.injEq] at h
    exact h ▸ inv
  rw [if_neg h0] at h
  by_cases h1 : c = 1
  · rw [if_pos h1] at h
    exact moveToBufferStart_inv h inv
  rw [if_neg h1] at h
  by_cases h2 : c = 2
  · rw [if_pos h2] at h
    exact moveLeftOneChar_inv h inv
  rw [if_neg h2] at h
  by_cases h3 : c = 3
  · rw [if_pos h3] at h
    rw [Option.bind_eq_some] at h
    obtain ⟨t, ht1, ht2⟩ := h
    split at ht1
    · exact writeStatus_inv ht2 (clearBuffer_inv (stopSearch_inv ht1 inv))
    · rw [Option.some.injEq] at ht1
      exact writeStatus_inv ht2 (clearBuffer_inv (ht1 ▸ inv))
  rw [if_neg h3] at h
  by_cases h4 : c = 4
  · rw [if_pos h4] at h
    exact Option.noConfusion h
  rw [if_neg h4] at h
  by_cases h5 : c = 5
  · rw [if_pos h5] at h
    exact moveToBufferEnd_inv h inv
  rw [if_neg h5] at h
  by_cases h6 : c = 6
  · rw [if_pos h6] at h
    exact moveRightOneChar_inv h inv
  rw [if_neg h6] at h
  by_cases h8 : c = 8
  · rw [if_pos h8] at h
    exact backspaceActiveBuffer_inv h inv
  rw [if_neg h8] at h
  by_cases h9 : c = 9
  · rw [if_pos h9] at h
    split at h
    · exact stopSearch_inv h inv
    · exact tab_inv h inv
  rw [if_neg h9] at h
  by_cases h10 : c = 10
  · rw [if_pos h10] at h
    split at h
    · exact stopSearch_inv h inv
    · exact dispatch1_printable_inv (Or.inl rfl) h inv
  rw [if_neg h10] at h
  by_cases h11 : c = 11
  · rw [if_pos h11] at h
    split at h
    · exact stopSearch_inv h inv
    · exact clearToEnd_inv h inv
  rw [if_neg h11] at h
  by_cases h12 : c = 12
  · rw [if_pos h12] at h
    exact redrawScreen_inv h inv
  rw [if_neg h12] at h
  by_cases h13 : c = 13
  · rw [if_pos h13] at h
    split at h
    · exact stopSearch_inv h inv
    · rw [Option.some.injEq] at h
      exact h ▸ evalBuffer_inv inv
  rw [if_neg h13] at h
  by_cases h14 : c = 14
  · rw [if_pos h14] at h
    exact historyForward_inv h inv
  rw [if_neg h14] at h
  by_cases h16 : c = 16
  · rw [if_pos h16] at h
    exact historyBack_inv h inv
  rw [if_neg h16] at h
  by_cases h17 : c = 17
  · rw [if_pos h17] at h
    split at h
    · exact stopSearch_inv h inv
    · exact clearOnePhraseRight_inv h inv
  rw [if_neg h17] at h
  by_cases h18 : c = 18
  · rw [if_pos h18] at h
    split at h
    · exact startReverseSearch_inv h inv
    · rw [Option.some.injEq] at h
      exact h ▸ inv
  rw [if_neg h18] at h
  by_cases h21 : c = 21
  · rw [if_pos h21] at h
    split at h
    · exact stopSearch_inv h inv
    · exact clearToStart_inv h inv
  rw [if_neg h21] at h
  by_cases h22 : c = 22
  · rw [if_pos h22] at h
    rw [Option.some.injEq] at h
    exact h ▸ inv
  rw [if_neg h22] at h
  by_cases h25 : c = 25
  · rw [if_pos h25] at h
    split at h
    · exact stopSearch_inv h inv
    · rw [Option.bind_eq_some] at h
      obtain ⟨t, ht1, ht2⟩ := h
      exact writeStatus_inv ht2 (insertPrevDel_inv ht1 inv)
  rw [if_neg h25] at h
  by_cases h23 : c = 23
  · rw [if_pos h23] at h
    split at h
    · exact stopSearch_inv h inv
    · exact clearOnePhraseLeft_inv h inv
  rw [if_neg h23] at h
  by_cases h27 : c = 27
  · rw [if_pos h27] at h
    split at h
    · exact stopSearch_inv h inv
    · exact writeStatus_inv h (clearBuffer_inv inv)
  rw [if_neg h27] at h
  by_cases h127 : c = 127
  · rw [if_pos h127] at h
    exact backspaceActiveBuffer_inv h inv
  rw [if_neg h127] at h
  by_cases hpr : 32 ≤ c
  · rw [if_pos hpr] at h
    split at h
    · exact searchAppend_inv h inv
    · exact dispatch1_printable_inv (Or.inr hpr) h inv
  rw [if_neg hpr] at h
  rw [Option.some.injEq] at h
  exact h ▸ inv

set_option maxHeartbeats 1000000 in
theorem dispatchEsc_inv {H : Handler} {s s' : Repl} {b : List Nat}
    (h : dispatchEsc H s b = some s') (inv : ReplInv H s) : ReplInv H s' := by
  simp only [dispatchEsc] at h
  repeat' split at h
  all_goals first
    | (rw [Option.some.injEq] at h; exact h ▸ inv)
    | exact historyBack_inv h inv
    | exact historyForward_inv h inv
    | exact moveRightOneChar_inv h inv
    | exact moveLeftOneChar_inv h inv
    | exact moveToBufferStart_inv h inv
    | exact moveToBufferEnd_inv h inv
    | exact deleteChar_inv h inv
    | exact moveLeftOnePhrase_inv h inv
    | exact moveRightOnePhrase_inv h inv
    | exact parseRowCol_inv h inv

theorem dispatchMixedR_inv {H : Handler} {s s' : Repl} {b : List Nat}
    (h : dispatchMixedR H s b = some s') (inv : ReplInv H s) : ReplInv H s' := by
  simp only [dispatchMixedR] at h
  split at h
  · rw [Option.some.injEq] at h
    exact h ▸ inv
  · rw [Option.bind_eq_some] at h
    obtain ⟨t, h1, h2⟩ := h
    have invt := parseRowCol_inv h1 inv
    split at h2
    · rw [Option.bind_eq_some] at h2
      obtain ⟨u, h3, h4⟩ := h2
      refine writeStatus_inv h4 (addBytes_inv h3 invt (fun _ x hx => ?_))
      have := List.of_mem_filter hx
      exact Or.inr (by exact_mod_cast of_decide_eq_true this)
    · rw [Option.some.injEq] at h2
      exact h2 ▸ invt

theorem dispatch_inv {H : Handler} {s s' : Repl} {b : List Nat}
    (h : dispatch H s b = some s') (inv : ReplInv H s) : ReplInv H s' := by
  simp only [dispatch] at h
  repeat' split at h
  all_goals first
    | (rw [Option.some.injEq] at h; exact h ▸ inv)
    | exact dispatch1_inv h inv
    | exact dispatchEsc_inv h inv
    | exact dispatchMixedR_inv h inv

theorem reach_inv {H : Handler} {s : Repl} (hr : Reach H s) : ReplInv H s := by
  induction hr with
  | init w h =>
    refine ⟨iff_of_true rfl rfl, ⟨le_refl _, by norm_num [newRepl]⟩,
      fun _ => rfl, by simp [newRepl], fun _ => ?_⟩
    exact ⟨goodBuf_nil, goodBuf_nil, by simp [newRepl],
      fun bk hbk => absurd hbk (by simp [newRepl])⟩
  | step m hs hd ih => exact dispatch_inv hd ih

/-- C3: in every state reachable by dispatching keystroke messages,
`historyIdx = -1` exactly when the backup is absent, and accepting a
line (Enter / `evalBuffer`) restores the pair (`historyIdx = -1`,
backup absent). -/
theorem c3_history_backup_sync (H : Handler) (s : Repl) (hr : Reach H s) :
    (s.historyIdx = -1 ↔ s.backup = none) ∧
    (evalBuffer H s).historyIdx = -1 ∧ (evalBuffer H s).backup = none :=
  ⟨(reach_inv hr).1, rfl, rfl⟩

theorem c3_history_backup_sync_witness :
    ((newRepl 80 24).historyIdx = -1 ↔ (newRepl 80 24).backup = none) ∧
    (evalBuffer H0 (newRepl 80 24)).historyIdx = -1 ∧
    (evalBuffer H0 (newRepl 80 24)).backup = none :=
  c3_history_backup_sync H0 (newRepl 80 24) (Reach.init 80 24)

/-- C7: the history of every reachable state has no two equal adjacent
entries, and `appendToHistory` is a no-op exactly when the entry equals
the current last entry (otherwise the entry is appended at the end). -/
theorem c7_history_dedup (H : Handler) (s : Repl) (hr : Reach H s) :
    List.Chain' (fun a b => a ≠ b) s.history ∧
    ∀ entry, (appendToHistory s entry).history =
      if 0 < s.history.length ∧ s.history.getLastD [] = entry then s.history
      else s.history ++ [entry] :=
  ⟨(reach_inv hr).2.2.2.1, fun entry => appendToHistory_history s entry⟩

theorem c7_history_dedup_witness :
    List.Chain' (fun a b => a ≠ b) (newRepl 80 24).history ∧
    ∀ entry, (appendToHistory (newRepl 80 24) entry).history =
      if 0 < (newRepl 80 24).history.length ∧
          (newRepl 80 24).history.getLastD [] = entry then (newRepl 80 24).history
      else (newRepl 80 24).history ++ [entry] :=
  c7_history_dedup H0 (newRepl 80 24) (Reach.init 80 24)

/-- C8 (amended): for every handler whose Tab completion callback
returns only newline (`0x0A`) or printable (`≥ 0x20`) bytes, every
element of the buffer of every reachable state is newline or printable.
(The unamended claim, for arbitrary handlers, is refuted by
`c8_counterexample`.) -/
theorem c8_buffer_printable (H : Handler) (hg : GoodTab H) (s : Repl)
    (hr : Reach H s) : ∀ c ∈ s.buffer, c = 10 ∨ 32 ≤ c :=
  ((reach_inv hr).2.2.2.2 hg).1

theorem c8_buffer_printable_witness : (120 : Nat) = 10 ∨ 32 ≤ (120 : Nat) :=
  c8_buffer_printable H0 (fun _bs c hc => absurd hc (List.not_mem_nil c)) sA1
    (Reach.step [120] (Reach.init 80 24) (by rfl)) 120 (by decide)
